import Mathlib

/-!
Verification of the maxkl/raytracer core against its specification.

The Rust source is shallowly embedded over exact rational arithmetic (`ℚ`
stands in for `f32`; rounding, infinities and NaN are outside the model and
noted where a code path could produce them).  Machine-integer (`usize`)
subtraction that can underflow is modelled explicitly.  Calls to `sqrt`
(`f32::sqrt`) are modelled by an explicit function parameter `sq : ℚ → ℚ`,
constrained in theorems exactly where the argument matters; concrete
instantiations use inputs whose square roots are exact rationals.

Embedded components (mirroring `src/`):
 * `math_util.rs`: `Axis`
 * `aabb.rs`:      `AABB`, `maximum_extent`, `intersects_p`
 * `ray.rs`:       `Ray`, `create_transmission`
 * `renderer.rs`:  `calc_fresnel_reflectivity`
 * `primitives.rs`: `Sphere::intersect` (projected onto the hit distance)
 * `mesh.rs`:      `intersect_triangle`, `LinearKDTree::{build, build_node,
                   intersect}` with the pre-allocated scratch buffers made
                   explicit
 * `obj_parser.rs`: `parse_vertex_ref`
-/

/-- `math_util.rs`: the three coordinate axes. -/
inductive Axis where
  | X : Axis
  | Y : Axis
  | Z : Axis
deriving DecidableEq, Repr

/-- Numeric index of an axis (`Axis as usize` in the source). -/
def Axis.idx : Axis → Nat
  | .X => 0
  | .Y => 1
  | .Z => 2

/-- A 3-component vector over exact rationals (`cgmath::Vector3<f32>` /
`cgmath::Point3<f32>`; the source distinguishes points from vectors only
nominally). -/
structure Vec3 where
  x : ℚ
  y : ℚ
  z : ℚ
deriving DecidableEq, Repr

namespace Vec3

def add (a b : Vec3) : Vec3 := ⟨a.x + b.x, a.y + b.y, a.z + b.z⟩

def sub (a b : Vec3) : Vec3 := ⟨a.x - b.x, a.y - b.y, a.z - b.z⟩

def neg (a : Vec3) : Vec3 := ⟨-a.x, -a.y, -a.z⟩

def smul (q : ℚ) (a : Vec3) : Vec3 := ⟨q * a.x, q * a.y, q * a.z⟩

instance : Add Vec3 := ⟨Vec3.add⟩

instance : Sub Vec3 := ⟨Vec3.sub⟩

instance : Neg Vec3 := ⟨Vec3.neg⟩

instance : HMul ℚ Vec3 Vec3 := ⟨Vec3.smul⟩

/-- `InnerSpace::dot`. -/
def dot (a b : Vec3) : ℚ := a.x * b.x + a.y * b.y + a.z * b.z

/-- `Vector3::cross`. -/
def cross (a b : Vec3) : Vec3 :=
  ⟨a.y * b.z - a.z * b.y, a.z * b.x - a.x * b.z, a.x * b.y - a.y * b.x⟩

/-- Component along an axis (`v[axis]`, via the `Index<Axis>` impl in
`math_util.rs`). -/
def nth (v : Vec3) : Axis → ℚ
  | .X => v.x
  | .Y => v.y
  | .Z => v.z

/-- Functional update of the component along an axis (`v[axis] = q`). -/
def setNth (v : Vec3) : Axis → ℚ → Vec3
  | .X, q => ⟨q, v.y, v.z⟩
  | .Y, q => ⟨v.x, q, v.z⟩
  | .Z, q => ⟨v.x, v.y, q⟩

def zero : Vec3 := ⟨0, 0, 0⟩

/-- `1.0 / ray.direction`, componentwise.  In `f32` a zero component gives
`±inf`; `ℚ` has `1 / 0 = 0` instead, so theorems about code paths taken by
axis-parallel rays are only faithful where noted. -/
def recip (v : Vec3) : Vec3 := ⟨1 / v.x, 1 / v.y, 1 / v.z⟩

end Vec3

/-- `ray.rs`: a ray; the shared mutable debug counter is dropped (it does not
influence any intersection result). -/
structure Ray where
  origin : Vec3
  direction : Vec3
deriving DecidableEq, Repr

/-- `mesh.rs`: result of a successful ray/triangle intersection. -/
structure TriangleHit where
  distance : ℚ
  u : ℚ
  v : ℚ
deriving DecidableEq, Repr

/-- `f32::EPSILON = 2⁻²³`. -/
def f32Epsilon : ℚ := 1 / 2 ^ 23

/-- `mesh.rs` lines 50-87: Möller-Trumbore ray-triangle intersection,
transcribed branch by branch. -/
def intersect_triangle (ray : Ray) (v0 v1 v2 : Vec3) : Option TriangleHit :=
  let v0v1 := v1 - v0
  let v0v2 := v2 - v0
  let pvec := ray.direction.cross v0v2
  let det := v0v1.dot pvec
  if |det| < f32Epsilon then none
  else
    let inv_det := 1 / det
    let tvec := ray.origin - v0
    let u := tvec.dot pvec * inv_det
    if u < 0 ∨ u > 1 then none
    else
      let qvec := tvec.cross v0v1
      let v := ray.direction.dot qvec * inv_det
      if v < 0 ∨ u + v > 1 then none
      else
        let t := v0v2.dot qvec * inv_det
        if t < 0 then none
        else some ⟨t, u, v⟩

/-- The Möller-Trumbore determinant `det = (v1-v0) · (dir × (v2-v0))`. -/
def mtDet (ray : Ray) (v0 v1 v2 : Vec3) : ℚ :=
  (v1 - v0).dot (ray.direction.cross (v2 - v0))

/-- The Möller-Trumbore barycentric coordinate `u`. -/
def mtU (ray : Ray) (v0 v1 v2 : Vec3) : ℚ :=
  (ray.origin - v0).dot (ray.direction.cross (v2 - v0)) * (1 / mtDet ray v0 v1 v2)

/-- The Möller-Trumbore barycentric coordinate `v`. -/
def mtV (ray : Ray) (v0 v1 v2 : Vec3) : ℚ :=
  ray.direction.dot ((ray.origin - v0).cross (v1 - v0)) * (1 / mtDet ray v0 v1 v2)

/-- The Möller-Trumbore ray distance `t`. -/
def mtT (ray : Ray) (v0 v1 v2 : Vec3) : ℚ :=
  (v2 - v0).dot ((ray.origin - v0).cross (v1 - v0)) * (1 / mtDet ray v0 v1 v2)

/-- **C6.**  For every ray and every triangle `(v0, v1, v2)`,
`intersect_triangle` returns `some (t, u, v)` if and only if the
Möller-Trumbore quantities satisfy `|det| ≥ ε`, `0 ≤ u ≤ 1`, `0 ≤ v`,
`u + v ≤ 1` and `t ≥ 0` (with `ε = f32::EPSILON`); otherwise it returns
`none`. -/
theorem intersect_triangle_characterization (ray : Ray) (v0 v1 v2 : Vec3) :
    intersect_triangle ray v0 v1 v2 =
      if f32Epsilon ≤ |mtDet ray v0 v1 v2| ∧
          0 ≤ mtU ray v0 v1 v2 ∧ mtU ray v0 v1 v2 ≤ 1 ∧
          0 ≤ mtV ray v0 v1 v2 ∧ mtU ray v0 v1 v2 + mtV ray v0 v1 v2 ≤ 1 ∧
          0 ≤ mtT ray v0 v1 v2 then
        some ⟨mtT ray v0 v1 v2, mtU ray v0 v1 v2, mtV ray v0 v1 v2⟩
      else none := by
  simp only [intersect_triangle, mtU, mtV, mtT, mtDet]
  by_cases hdet : |(v1 - v0).dot (ray.direction.cross (v2 - v0))| < f32Epsilon
  · simp only [hdet, if_true]
    rw [if_neg]
    rintro ⟨h1, -⟩
    exact absurd hdet (not_lt.mpr h1)
  · simp only [hdet, if_false]
    have hdet' : f32Epsilon ≤ |(v1 - v0).dot (ray.direction.cross (v2 - v0))| :=
      not_lt.mp hdet
    by_cases hu : (ray.origin - v0).dot (ray.direction.cross (v2 - v0)) *
        (1 / (v1 - v0).dot (ray.direction.cross (v2 - v0))) < 0 ∨
        (ray.origin - v0).dot (ray.direction.cross (v2 - v0)) *
        (1 / (v1 - v0).dot (ray.direction.cross (v2 - v0))) > 1
    · simp only [hu, if_true]
      rw [if_neg]
      rintro ⟨-, h2, h3, -⟩
      rcases hu with h | h
      · exact absurd h2 (not_le.mpr h)
      · exact absurd h3 (not_le.mpr h)
    · simp only [hu, if_false]
      push_neg at hu
      obtain ⟨hu0, hu1⟩ := hu
      by_cases hv : ray.direction.dot ((ray.origin - v0).cross (v1 - v0)) *
          (1 / (v1 - v0).dot (ray.direction.cross (v2 - v0))) < 0 ∨
          (ray.origin - v0).dot (ray.direction.cross (v2 - v0)) *
          (1 / (v1 - v0).dot (ray.direction.cross (v2 - v0))) +
          ray.direction.dot ((ray.origin - v0).cross (v1 - v0)) *
          (1 / (v1 - v0).dot (ray.direction.cross (v2 - v0))) > 1
      · simp only [hv, if_true]
        rw [if_neg]
        rintro ⟨-, -, -, h4, h5, -⟩
        rcases hv with h | h
        · exact absurd h4 (not_le.mpr h)
        · exact absurd h5 (not_le.mpr h)
      · simp only [hv, if_false]
        push_neg at hv
        obtain ⟨hv0, hv1⟩ := hv
        by_cases ht : (v2 - v0).dot ((ray.origin - v0).cross (v1 - v0)) *
            (1 / (v1 - v0).dot (ray.direction.cross (v2 - v0))) < 0
        · simp only [ht, if_true]
          rw [if_neg]
          rintro ⟨-, -, -, -, -, h6⟩
          exact absurd h6 (not_le.mpr ht)
        · simp only [ht, if_false]
          rw [if_pos]
          exact ⟨hdet', hu0, hu1, hv0, hv1, not_lt.mp ht⟩

/-- `aabb.rs`: an axis-aligned bounding box. -/
structure AABB where
  min : Vec3
  max : Vec3
deriving DecidableEq, Repr

namespace AABB

/-- `AABB::new` (componentwise min/max of two corner points). -/
def new (p1 p2 : Vec3) : AABB :=
  ⟨⟨Min.min p1.x p2.x, Min.min p1.y p2.y, Min.min p1.z p2.z⟩,
   ⟨Max.max p1.x p2.x, Max.max p1.y p2.y, Max.max p1.z p2.z⟩⟩

/-- `AABB::from_triangle`. -/
def from_triangle (p1 p2 p3 : Vec3) : AABB :=
  ⟨⟨Min.min (Min.min p1.x p2.x) p3.x, Min.min (Min.min p1.y p2.y) p3.y,
    Min.min (Min.min p1.z p2.z) p3.z⟩,
   ⟨Max.max (Max.max p1.x p2.x) p3.x, Max.max (Max.max p1.y p2.y) p3.y,
    Max.max (Max.max p1.z p2.z) p3.z⟩⟩

/-- `AABB::union`. -/
def union (a b : AABB) : AABB :=
  ⟨⟨Min.min a.min.x b.min.x, Min.min a.min.y b.min.y, Min.min a.min.z b.min.z⟩,
   ⟨Max.max a.max.x b.max.x, Max.max a.max.y b.max.y, Max.max a.max.z b.max.z⟩⟩

/-- The extent of the box along an axis (a component of `max - min`). -/
def extent (b : AABB) (a : Axis) : ℚ := b.max.nth a - b.min.nth a

/-- `aabb.rs` lines 66-76: `AABB::maximum_extent`, transcribed branch by
branch. -/
def maximum_extent (b : AABB) : Axis :=
  let e := b.max - b.min
  if e.x > e.y ∧ e.x > e.z then .X
  else if e.y > e.z then .Y
  else .Z

/-- `aabb.rs` lines 78-98: `AABB::intersects_p`, the slab test.  Faithful for
rays with no zero direction component (a zero component gives `±inf` slabs in
`f32` but `1 / 0 = 0` in `ℚ`). -/
def intersects_p (b : AABB) (ray : Ray) : Option (ℚ × ℚ) :=
  let dirfrac := ray.direction.recip
  let t1 := (b.min.x - ray.origin.x) * dirfrac.x
  let t2 := (b.max.x - ray.origin.x) * dirfrac.x
  let t3 := (b.min.y - ray.origin.y) * dirfrac.y
  let t4 := (b.max.y - ray.origin.y) * dirfrac.y
  let t5 := (b.min.z - ray.origin.z) * dirfrac.z
  let t6 := (b.max.z - ray.origin.z) * dirfrac.z
  let tmin := Max.max (Max.max (Min.min t1 t2) (Min.min t3 t4)) (Min.min t5 t6)
  let tmax := Min.min (Min.min (Max.max t1 t2) (Max.max t3 t4)) (Max.max t5 t6)
  if tmax < 0 then none
  else if tmin > tmax then none
  else some (tmin, tmax)

end AABB

/-- **C9, counterexample.**  The claim says ties among largest extents are
broken in favour of `x` over `y`.  On the box `[0,2]×[0,2]×[0,1]` the `x` and
`y` extents tie for largest (both `2`), yet `maximum_extent` returns `Y`, not
`X`: the first branch `e.x > e.y && e.x > e.z` demands a *strict* win for `x`. -/
theorem maximum_extent_tie_not_x :
    AABB.maximum_extent ⟨⟨0, 0, 0⟩, ⟨2, 2, 1⟩⟩ = Axis.Y ∧
    AABB.extent ⟨⟨0, 0, 0⟩, ⟨2, 2, 1⟩⟩ Axis.X =
      AABB.extent ⟨⟨0, 0, 0⟩, ⟨2, 2, 1⟩⟩ Axis.Y ∧
    Axis.Y ≠ Axis.X := by
  refine ⟨?_, ?_, by decide⟩ <;> with_unfolding_all decide

/-- **C9, amended.**  `maximum_extent` returns an axis of largest extent, but
ties are broken in favour of the *later* axis (`z` over `y` over `x`), not the
earlier one: the returned axis has maximal extent, and no axis with a strictly
larger index attains the same extent... equivalently every axis attaining the
maximum has index ≤ the returned axis's index is false -- the returned axis is
the *last* maximiser.  Formally: every extent is ≤ the returned one, and every
axis tying with the returned one has index ≤ the returned axis's index. -/
theorem maximum_extent_amended (b : AABB) :
    (∀ a : Axis, b.extent a ≤ b.extent b.maximum_extent) ∧
    (∀ a : Axis, b.extent a = b.extent b.maximum_extent →
      a.idx ≤ b.maximum_extent.idx) := by
  by_cases h1 : b.max.x - b.min.x > b.max.y - b.min.y ∧
      b.max.x - b.min.x > b.max.z - b.min.z
  · have hm : b.maximum_extent = Axis.X := by
      simp only [AABB.maximum_extent]
      rw [if_pos]
      exact h1
    rw [hm]
    obtain ⟨h11, h12⟩ := h1
    constructor
    · intro a
      cases a <;> simp only [AABB.extent, Vec3.nth] <;> linarith
    · intro a
      cases a <;> simp only [AABB.extent, Vec3.nth, Axis.idx] <;> intro h
      · omega
      · exfalso; linarith
      · exfalso; linarith
  · by_cases h2 : b.max.y - b.min.y > b.max.z - b.min.z
    · have hm : b.maximum_extent = Axis.Y := by
        simp only [AABB.maximum_extent]
        rw [if_neg, if_pos]
        · exact h2
        · exact h1
      rw [hm]
      rw [not_and_or] at h1
      have hxy : b.max.x - b.min.x ≤ b.max.y - b.min.y := by
        rcases h1 with h | h
        · linarith [not_lt.mp h]
        · linarith [not_lt.mp h, h2]
      constructor
      · intro a
        cases a <;> simp only [AABB.extent, Vec3.nth] <;> linarith
      · intro a
        cases a <;> simp only [AABB.extent, Vec3.nth, Axis.idx] <;> intro h
        · omega
        · omega
        · exfalso; linarith
    · have hm : b.maximum_extent = Axis.Z := by
        simp only [AABB.maximum_extent]
        rw [if_neg, if_neg]
        · exact h2
        · exact h1
      rw [hm]
      rw [not_and_or] at h1
      have hzy : b.max.y - b.min.y ≤ b.max.z - b.min.z := not_lt.mp h2
      have hxz : b.max.x - b.min.x ≤ b.max.z - b.min.z := by
        rcases h1 with h | h
        · linarith [not_lt.mp h]
        · linarith [not_lt.mp h]
      constructor
      · intro a
        cases a <;> simp only [AABB.extent, Vec3.nth] <;> linarith
      · intro a
        cases a <;> simp only [AABB.extent, Vec3.nth, Axis.idx] <;> intro h <;> omega

/-- `ray.rs` lines 77-104: `Ray::create_transmission`, transcribed branch by
branch.  `f32::sqrt` is the explicit parameter `sq`; the literal `1e-5` is the
exact rational `1/100000`. -/
def create_transmission (sq : ℚ → ℚ) (normal incident hit_point : Vec3)
    (refractive_index : ℚ) : Option Ray :=
  let d := incident.dot normal
  let i_dot_n := if d < 0 then -d else d
  let ref_n := if d < 0 then normal else -normal
  let eta_t := if d < 0 then refractive_index else 1
  let eta_i := if d < 0 then 1 else refractive_index
  let eta := eta_i / eta_t
  let k := 1 - eta ^ 2 * (1 - i_dot_n ^ 2)
  if k < 0 then none
  else some ⟨hit_point - (1 / 100000 : ℚ) * ref_n,
             eta * incident + (i_dot_n * eta - sq k) * ref_n⟩

/-- `renderer.rs` lines 144-168: `Renderer::calc_fresnel_reflectivity`,
transcribed branch by branch (it reads nothing from `self`). -/
def calc_fresnel_reflectivity (sq : ℚ → ℚ) (normal incident : Vec3)
    (refractive_index : ℚ) : ℚ :=
  let d := incident.dot normal
  let i_dot_n := if d < 0 then -d else d
  let eta_t := if d < 0 then refractive_index else 1
  let eta_i := if d < 0 then 1 else refractive_index
  let sin_theta_t := eta_i / eta_t * sq (1 - i_dot_n ^ 2)
  if sin_theta_t ≥ 1 then 1
  else
    let cos_theta_t := sq (1 - sin_theta_t ^ 2)
    let r_s := (eta_t * i_dot_n - eta_i * cos_theta_t) /
               (eta_t * i_dot_n + eta_i * cos_theta_t)
    let r_p := (eta_i * i_dot_n - eta_t * cos_theta_t) /
               (eta_i * i_dot_n + eta_t * cos_theta_t)
    (1 / 2) * (r_s ^ 2 + r_p ^ 2)

/-- Square-root model used in the C7 concrete inputs: exact on the two
arguments that actually occur (`16/25` and `0`). -/
def sqC7 : ℚ → ℚ := fun q => if q = 16 / 25 then 4 / 5 else 0

/-- **C7, counterexample.**  The claim says `create_transmission` returns
`None` *iff* `calc_fresnel_reflectivity` returns `1.0`.  At the critical angle
the two sides disagree: with unit normal `(0,0,1)`, unit incident `(4/5,0,3/5)`
and refractive index `5/4` (an exiting ray with `sin_t = 1` exactly, i.e.
`k = 0`), Fresnel hits its TIR branch (`sin_t ≥ 1`) and returns `1.0`, while
the transmission test `k < 0` fails and a refracted ray *is* produced. -/
theorem transmission_fresnel_boundary_mismatch :
    calc_fresnel_reflectivity sqC7 ⟨0, 0, 1⟩ ⟨4/5, 0, 3/5⟩ (5/4) = 1 ∧
    create_transmission sqC7 ⟨0, 0, 1⟩ ⟨4/5, 0, 3/5⟩ ⟨0, 0, 0⟩ (5/4) ≠ none := by
  with_unfolding_all decide

/-- **C7, amended.**  Total internal reflection in `create_transmission`
implies the Fresnel TIR result, but not conversely: whenever
`create_transmission` returns `None` (its `k < 0` test), then
`calc_fresnel_reflectivity` on the same normal, incident direction and
refractive index returns `1.0` (its `sin_t ≥ 1` test); the reverse implication
fails at the `k = 0` boundary (see the counterexample).  Hypotheses: the
refractive index is positive and `sq` is an exact non-negative square root at
the one argument both functions feed it, `1 - (incident·normal)²`. -/
theorem transmission_none_implies_fresnel_one (sq : ℚ → ℚ)
    (normal incident hit_point : Vec3) (refractive_index : ℚ)
    (hr : 0 < refractive_index)
    (hs0 : 0 ≤ sq (1 - (incident.dot normal) ^ 2))
    (hs1 : sq (1 - (incident.dot normal) ^ 2) ^ 2 = 1 - (incident.dot normal) ^ 2)
    (hnone : create_transmission sq normal incident hit_point refractive_index = none) :
    calc_fresnel_reflectivity sq normal incident refractive_index = 1 := by
  simp only [create_transmission] at hnone
  simp only [calc_fresnel_reflectivity]
  by_cases hd : incident.dot normal < 0
  · simp only [hd, if_true] at hnone ⊢
    have hk : 1 - (1 / refractive_index) ^ 2 * (1 - (-incident.dot normal) ^ 2) < 0 := by
      by_contra hk'
      rw [if_neg hk'] at hnone
      exact Option.noConfusion hnone
    have hneg : (1 : ℚ) - (-incident.dot normal) ^ 2 = 1 - incident.dot normal ^ 2 := by
      ring
    rw [hneg] at hk ⊢
    have hpos : 0 < 1 / refractive_index := by positivity
    have h2 : (1 / refractive_index * sq (1 - incident.dot normal ^ 2)) ^ 2 > 1 := by
      rw [mul_pow, hs1]
      linarith
    have hcond : 1 / refractive_index * sq (1 - incident.dot normal ^ 2) ≥ 1 := by
      nlinarith [mul_nonneg hpos.le hs0]
    rw [if_pos hcond]
  · simp only [hd, if_false] at hnone ⊢
    have hk : 1 - (refractive_index / 1) ^ 2 * (1 - incident.dot normal ^ 2) < 0 := by
      by_contra hk'
      rw [if_neg hk'] at hnone
      exact Option.noConfusion hnone
    have h2 : (refractive_index / 1 * sq (1 - incident.dot normal ^ 2)) ^ 2 > 1 := by
      rw [mul_pow, hs1]
      linarith
    have hcond : refractive_index / 1 * sq (1 - incident.dot normal ^ 2) ≥ 1 := by
      nlinarith [mul_nonneg hr.le hs0]
    rw [if_pos hcond]

/-- **C7, witness** for `transmission_none_implies_fresnel_one`: a genuine TIR
input (exiting ray, `sin_t = 2 > 1`, `k = -3 < 0`). -/
theorem transmission_none_implies_fresnel_one_witness :
    create_transmission sqC7 ⟨0, 0, 1⟩ ⟨4/5, 0, 3/5⟩ ⟨0, 0, 0⟩ (5/2) = none ∧
    calc_fresnel_reflectivity sqC7 ⟨0, 0, 1⟩ ⟨4/5, 0, 3/5⟩ (5/2) = 1 := by
  refine ⟨by with_unfolding_all decide, ?_⟩
  exact transmission_none_implies_fresnel_one sqC7 ⟨0, 0, 1⟩ ⟨4/5, 0, 3/5⟩
    ⟨0, 0, 0⟩ (5/2) (by norm_num) (by with_unfolding_all decide)
    (by with_unfolding_all decide) (by with_unfolding_all decide)

/-- `primitives.rs`: a sphere. -/
structure Sphere where
  center : Vec3
  radius : ℚ
deriving DecidableEq, Repr

/-- The projection `adjacent = (center - origin) · direction` computed by
`Sphere::intersect`. -/
def sphereAdjacent (s : Sphere) (ray : Ray) : ℚ :=
  (s.center - ray.origin).dot ray.direction

/-- The squared distance between the ray's line and the sphere center
(`distance_squared` in `Sphere::intersect`). -/
def sphereDistSq (s : Sphere) (ray : Ray) : ℚ :=
  (s.center - ray.origin).dot (s.center - ray.origin) - sphereAdjacent s ray ^ 2

/-- The smaller root `t0 = adjacent - thickness_half` of the ray/sphere
quadratic (with `sq` standing for `f32::sqrt`). -/
def sphereT0 (sq : ℚ → ℚ) (s : Sphere) (ray : Ray) : ℚ :=
  sphereAdjacent s ray - sq (s.radius ^ 2 - sphereDistSq s ray)

/-- The larger root `t1 = adjacent + thickness_half`. -/
def sphereT1 (sq : ℚ → ℚ) (s : Sphere) (ray : Ray) : ℚ :=
  sphereAdjacent s ray + sq (s.radius ^ 2 - sphereDistSq s ray)

/-- `primitives.rs` lines 69-113: `Sphere::intersect`, transcribed branch by
branch and projected onto the returned hit distance (the subsequent hit point,
normal and spherical UV computations copy `distance` into `Hit::distance`
unchanged; normal and UVs need `normalize`/`atan2`/`acos`, which have no exact
rational counterpart and play no role in claim C8). -/
def Sphere.intersectDist (sq : ℚ → ℚ) (s : Sphere) (ray : Ray) : Option ℚ :=
  let to_center := s.center - ray.origin
  let adjacent := to_center.dot ray.direction
  if adjacent < 0 then none
  else
    let center_distance_squared := to_center.dot to_center
    let distance_squared := center_distance_squared - adjacent ^ 2
    let radius_squared := s.radius ^ 2
    if distance_squared > radius_squared then none
    else
      let thickness_half := sq (radius_squared - distance_squared)
      let t0 := adjacent - thickness_half
      let t1 := adjacent + thickness_half
      if t0 < 0 ∧ t1 < 0 then none
      else some (if t0 < 0 then t1
                 else if t1 < 0 then t0
                 else if t0 < t1 then t0 else t1)

/-- Square-root model used in the C8 concrete inputs: exact on the one
argument that occurs (`4`). -/
def sqC8 : ℚ → ℚ := fun q => if q = 4 then 2 else 0

/-- **C8, counterexample.**  The claim says `Sphere::intersect` returns `None`
only when the line misses the sphere or both roots are negative.  Take the
unit-direction ray starting *inside* the sphere of radius 2 centered at the
origin, at point `(0,0,1)` heading `(0,0,1)` (away from the center): the line
meets the sphere (`distance_squared = 0 ≤ radius² = 4`) and the larger root is
`t1 = 1 ≥ 0`, yet the early test `adjacent = -1 < 0` ("is the sphere behind
the ray origin?") returns `None`. -/
theorem sphere_intersect_inside_pointing_away_none :
    Sphere.intersectDist sqC8 ⟨⟨0, 0, 0⟩, 2⟩ ⟨⟨0, 0, 1⟩, ⟨0, 0, 1⟩⟩ = none ∧
    sphereDistSq ⟨⟨0, 0, 0⟩, 2⟩ ⟨⟨0, 0, 1⟩, ⟨0, 0, 1⟩⟩ ≤ (2 : ℚ) ^ 2 ∧
    sphereT1 sqC8 ⟨⟨0, 0, 0⟩, 2⟩ ⟨⟨0, 0, 1⟩, ⟨0, 0, 1⟩⟩ = 1 ∧
    ((0 : ℚ) ≤ 1) := by
  with_unfolding_all decide

/-- **C8, amended.**  `Sphere::intersect` returns `None` exactly when the
center projection `adjacent` is negative *or* the line misses the sphere
(`distance² > radius²`); the `adjacent < 0` rejection also discards rays that
start inside the sphere pointing away from its center even though a
non-negative root exists (see the counterexample).  When it does return a hit,
the distance is the nearer non-negative root of `{t0, t1}`.  Hypothesis: `sq`
is non-negative at the one argument fed to it (true of `f32::sqrt` on the
non-negative argument guaranteed by the `distance² > radius²` test). -/
theorem sphere_intersect_amended (sq : ℚ → ℚ) (s : Sphere) (ray : Ray)
    (hs0 : 0 ≤ sq (s.radius ^ 2 - sphereDistSq s ray)) :
    (Sphere.intersectDist sq s ray = none ↔
      sphereAdjacent s ray < 0 ∨ s.radius ^ 2 < sphereDistSq s ray) ∧
    (∀ dist, Sphere.intersectDist sq s ray = some dist →
      (dist = sphereT0 sq s ray ∨ dist = sphereT1 sq s ray) ∧ 0 ≤ dist ∧
      (∀ t, (t = sphereT0 sq s ray ∨ t = sphereT1 sq s ray) → 0 ≤ t → dist ≤ t)) := by
  simp only [Sphere.intersectDist, sphereT0, sphereT1, sphereAdjacent,
    sphereDistSq] at hs0 ⊢
  set A := (s.center - ray.origin).dot ray.direction with hA
  set C := (s.center - ray.origin).dot (s.center - ray.origin) with hC
  set TH := sq (s.radius ^ 2 - (C - A ^ 2)) with hTH
  by_cases ha : A < 0
  · rw [if_pos ha]
    refine ⟨by simp [ha], ?_⟩
    intro dist h
    exact Option.noConfusion h
  · rw [if_neg ha]
    push_neg at ha
    by_cases hmiss : C - A ^ 2 > s.radius ^ 2
    · rw [if_pos hmiss]
      refine ⟨by simp [hmiss], ?_⟩
      intro dist h
      exact Option.noConfusion h
    · rw [if_neg hmiss]
      push_neg at hmiss
      have ht1 : 0 ≤ A + TH := by linarith
      have hboth : ¬(A - TH < 0 ∧ A + TH < 0) := by
        rintro ⟨-, h1⟩
        linarith
      rw [if_neg hboth]
      constructor
      · constructor
        · intro h
          exact Option.noConfusion h
        · rintro (h | h)
          · exact absurd h (not_lt.mpr ha)
          · exact absurd h (not_lt.mpr hmiss)
      · intro dist h
        have hd := Option.some.inj h
        by_cases h0 : A - TH < 0
        · rw [if_pos h0] at hd
          subst hd
          refine ⟨Or.inr rfl, ht1, ?_⟩
          rintro t (ht | ht) htn
          · exact absurd htn (not_le.mpr (ht ▸ h0))
          · exact le_of_eq ht.symm
        · rw [if_neg h0] at hd
          push_neg at h0
          have h1lt : ¬(A + TH < 0) := not_lt.mpr ht1
          rw [if_neg h1lt] at hd
          by_cases hlt : A - TH < A + TH
          · rw [if_pos hlt] at hd
            subst hd
            refine ⟨Or.inl rfl, h0, ?_⟩
            rintro t (ht | ht) htn
            · exact le_of_eq ht.symm
            · rw [ht]
              linarith
          · rw [if_neg hlt] at hd
            subst hd
            push_neg at hlt
            refine ⟨Or.inr rfl, ht1, ?_⟩
            rintro t (ht | ht) htn
            · rw [ht]
              linarith
            · exact le_of_eq ht.symm

/-- **C8, witness** for `sphere_intersect_amended`: ray from `(0,0,-5)`
heading `(0,0,1)` at the radius-2 sphere about the origin; roots `3` and `7`,
returned distance `3`. -/
theorem sphere_intersect_amended_witness :
    (Sphere.intersectDist sqC8 ⟨⟨0, 0, 0⟩, 2⟩ ⟨⟨0, 0, -5⟩, ⟨0, 0, 1⟩⟩ = none ↔
      sphereAdjacent ⟨⟨0, 0, 0⟩, 2⟩ ⟨⟨0, 0, -5⟩, ⟨0, 0, 1⟩⟩ < 0 ∨
      (2 : ℚ) ^ 2 < sphereDistSq ⟨⟨0, 0, 0⟩, 2⟩ ⟨⟨0, 0, -5⟩, ⟨0, 0, 1⟩⟩) ∧
    (∀ dist,
      Sphere.intersectDist sqC8 ⟨⟨0, 0, 0⟩, 2⟩ ⟨⟨0, 0, -5⟩, ⟨0, 0, 1⟩⟩ = some dist →
      (dist = sphereT0 sqC8 ⟨⟨0, 0, 0⟩, 2⟩ ⟨⟨0, 0, -5⟩, ⟨0, 0, 1⟩⟩ ∨
       dist = sphereT1 sqC8 ⟨⟨0, 0, 0⟩, 2⟩ ⟨⟨0, 0, -5⟩, ⟨0, 0, 1⟩⟩) ∧ 0 ≤ dist ∧
      (∀ t, (t = sphereT0 sqC8 ⟨⟨0, 0, 0⟩, 2⟩ ⟨⟨0, 0, -5⟩, ⟨0, 0, 1⟩⟩ ∨
             t = sphereT1 sqC8 ⟨⟨0, 0, 0⟩, 2⟩ ⟨⟨0, 0, -5⟩, ⟨0, 0, 1⟩⟩) → 0 ≤ t →
        dist ≤ t)) :=
  sphere_intersect_amended sqC8 ⟨⟨0, 0, 0⟩, 2⟩ ⟨⟨0, 0, -5⟩, ⟨0, 0, 1⟩⟩
    (by with_unfolding_all decide)

/-- The distinct `InvalidVertexReference` messages produced by
`parse_vertex_ref` in `obj_parser.rs` (the `String` payloads of the Rust enum
are modelled as tags). -/
inductive VertexRefErr where
  | missingPositionIndex : VertexRefErr
  | invalidPositionIndex : VertexRefErr
  | invalidTexCoordIndex : VertexRefErr
  | invalidNormalIndex : VertexRefErr
  | tooManySlashes : VertexRefErr
deriving DecidableEq, Repr

/-- `obj_parser.rs`: `ObjParseError` (payload strings and line numbers beyond
the variant used by `parse_vertex_ref` are dropped). -/
inductive ObjParseError where
  | NotEnoughArguments : ObjParseError
  | TooManyArguments : ObjParseError
  | MultipleObjects : ObjParseError
  | InvalidFloat : ObjParseError
  | InvalidKeyword : ObjParseError
  | InvalidVertexReference : Nat → VertexRefErr → ObjParseError
  | IndexOutOfBounds : ObjParseError
deriving DecidableEq, Repr

/-- Outcome of `parse_vertex_ref`: a parsed `(position, tex-coord, normal)`
index triple, a returned `ObjParseError`, or an arithmetic-overflow panic
(`usize` subtraction `0 - 1`, which aborts under debug assertions and wraps to
`usize::MAX` in release builds). -/
inductive VertexRefResult where
  | ok : Nat → Option Nat → Option Nat → VertexRefResult
  | err : ObjParseError → VertexRefResult
  | panicked : VertexRefResult
deriving DecidableEq, Repr

/-- `str::split(sep)`: split a character list at every separator, keeping
empty fields (`"a//b" ↦ ["a", "", "b"]`, `"" ↦ [""]`). -/
def splitChar (sep : Char) : List Char → List (List Char)
  | [] => [[]]
  | c :: rest =>
    match splitChar sep rest with
    | [] => [[c]]
    | h :: t => if c = sep then [] :: h :: t else (c :: h) :: t

def isAsciiDigit (c : Char) : Bool := '0' ≤ c && c ≤ '9'

/-- Digit-string to number (`none` on an empty string or a non-digit). -/
def parseDigits (l : List Char) : Option Nat :=
  match l with
  | [] => none
  | _ =>
    l.foldl
      (fun acc c =>
        match acc with
        | none => none
        | some n => if isAsciiDigit c then some (n * 10 + (c.toNat - '0'.toNat)) else none)
      (some 0)

/-- `str::parse::<usize>()`: an optional leading `+`, then one or more ASCII
digits (numeric overflow of huge literals is not modelled). -/
def parseUsize (s : List Char) : Option Nat :=
  match s with
  | '+' :: rest => parseDigits rest
  | _ => parseDigits s

/-- `usize` subtraction of `1`, checked: `0 - 1` underflows. -/
def checkedSub1 (n : Nat) : Option Nat :=
  if n = 0 then none else some (n - 1)

/-- The tail of `parse_vertex_ref` (`obj_parser.rs` lines 68-73): the 1-based
to 0-based conversions `pos_index - 1`, `tex_coord_index.map(|i| i - 1)`,
`normal_index.map(|i| i - 1)`, in source order, each an unchecked `usize`
subtraction. -/
def vertexRefFinish (pos : Nat) (tex nrm : Option Nat) : VertexRefResult :=
  match checkedSub1 pos with
  | none => .panicked
  | some pos0 =>
    match tex with
    | none =>
      match nrm with
      | none => .ok pos0 none none
      | some n =>
        match checkedSub1 n with
        | none => .panicked
        | some n0 => .ok pos0 none (some n0)
    | some t =>
      match checkedSub1 t with
      | none => .panicked
      | some t0 =>
        match nrm with
        | none => .ok pos0 (some t0) none
        | some n =>
          match checkedSub1 n with
          | none => .panicked
          | some n0 => .ok pos0 (some t0) (some n0)

/-- `obj_parser.rs` lines 48-74: `parse_vertex_ref`.  Splits at `/`, parses
`p[/t][/n]` with `usize` indices, rejects a fourth field, then converts the
1-based indices to 0-based by subtracting one. -/
def parse_vertex_ref (s : List Char) (line_number : Nat) : VertexRefResult :=
  match splitChar '/' s with
  | [] => .err (.InvalidVertexReference line_number .missingPositionIndex)
  | p0 :: rest1 =>
    match parseUsize p0 with
    | none => .err (.InvalidVertexReference line_number .invalidPositionIndex)
    | some pos_index =>
      match rest1 with
      | [] => vertexRefFinish pos_index none none
      | p1 :: rest2 =>
        match parseUsize p1 with
        | none => .err (.InvalidVertexReference line_number .invalidTexCoordIndex)
        | some tex_coord_index =>
          match rest2 with
          | [] => vertexRefFinish pos_index (some tex_coord_index) none
          | p2 :: rest3 =>
            match parseUsize p2 with
            | none => .err (.InvalidVertexReference line_number .invalidNormalIndex)
            | some normal_index =>
              match rest3 with
              | [] => vertexRefFinish pos_index (some tex_coord_index) (some normal_index)
              | _ => .err (.InvalidVertexReference line_number .tooManySlashes)

/-- **C10.**  The claim says `ObjParser::parse` never panics and in particular
`parse_vertex_ref` never subtracts 1 from a zero index.  But a face line such
as `f 0 1 1` hands the reference string `"0"` to `parse_vertex_ref`, whose
index field parses to `0usize`; the conversion `pos_index - 1` then underflows
(panicking under debug assertions, wrapping to `usize::MAX` in release).  A
well-formed reference `"1"` parses fine, and a reference `"x"` is rejected
through the error channel as intended -- only the zero index reaches the
unchecked subtraction. -/
theorem parse_vertex_ref_zero_underflows :
    parse_vertex_ref ['0'] 1 = .panicked ∧
    parse_vertex_ref ['1'] 1 = .ok 0 none none ∧
    parse_vertex_ref ['x'] 1 =
      .err (.InvalidVertexReference 1 .invalidPositionIndex) ∧
    parse_vertex_ref ['2', '/', '3', '/', '4'] 7 =
      .ok 1 (some 2) (some 3) := by
  decide

/-- `mesh.rs`: an indexed triangle.  Only the position indices are kept: the
optional normal/tex-coord index triples feed the final `Hit` interpolation
stage, which never affects hit existence or distance (the subjects of the
claims). -/
structure IndexedTriangle where
  position_indices : Nat × Nat × Nat
deriving DecidableEq, Repr

/-- `mesh.rs`: mesh buffers (normals and tex-coords omitted, as above). -/
structure MeshData where
  vertex_positions : List Vec3
  triangles : List IndexedTriangle
deriving DecidableEq, Repr

/-- `MeshData::get_vertex_position`.  The Rust indexing panics out of bounds;
meshes produced by the OBJ parser are bounds-checked at load, and the model
totalizes with a zero default. -/
def MeshData.get_vertex_position (data : MeshData) (i : Nat) : Vec3 :=
  data.vertex_positions.getD i Vec3.zero

/-- The three corner positions of triangle `i`. -/
def MeshData.triVerts (data : MeshData) (i : Nat) : Vec3 × Vec3 × Vec3 :=
  let tri := data.triangles.getD i ⟨(0, 0, 0)⟩
  (data.get_vertex_position tri.position_indices.1,
   data.get_vertex_position tri.position_indices.2.1,
   data.get_vertex_position tri.position_indices.2.2)

/-- `mesh.rs`: `KDTreeOptions`.  `debug` only drives logging; the
`max_depth` default `round(8 + 1.3·log₂(N))` is computed with `f32::log2`
(transcendental), so the resolved depth is an explicit argument of `build`
below. -/
structure KDTreeOptions where
  max_leaf_size : Nat
deriving DecidableEq, Repr

/-- `mesh.rs`: a packed KD-tree node, modelled by its decoded fields.  (The
source packs these into two `u32`s: low 2 bits of `first_field` are `0b11`
for a leaf or the split axis for an inner node, the high 30 bits hold the
triangle count resp. the above-child index -- `checked_shl` overflow for
counts/indices ≥ 2³⁰ is not modelled -- and `second_field` is the start index
resp. the `f32` split position.) -/
inductive LinearKDTreeNode where
  | leaf : (triangle_count : Nat) → (triangles_start_index : Nat) → LinearKDTreeNode
  | inner : (above_child_index : Nat) → (split_axis : Axis) → (split_position : ℚ) →
      LinearKDTreeNode
deriving DecidableEq, Repr

/-- `LinearKDTreeNode::is_inner`. -/
def LinearKDTreeNode.is_inner : LinearKDTreeNode → Bool
  | .inner _ _ _ => true
  | .leaf _ _ => false

/-- `LinearKDTreeNode::set_above_child_index` (only ever invoked on the inner
node the caller just emitted). -/
def LinearKDTreeNode.set_above_child_index :
    LinearKDTreeNode → Nat → LinearKDTreeNode
  | .inner _ ax sp, a => .inner a ax sp
  | .leaf c s, _ => .leaf c s

/-- `mesh.rs`: edge of a bounding box projected onto an axis. -/
structure BoundEdge where
  position : ℚ
  triangle_index : Nat
  is_end : Bool
deriving DecidableEq, Repr

/-- The mutable state threaded through `build_node`: the growing `nodes` and
`linear_triangle_indices` vectors and the two pre-allocated scratch buffers.
`indices_below` is always passed whole; the `indices_above` sub-slice a frame
sees is `indices_above[above_start..]`, so the backing buffer is kept whole
here with explicit absolute offsets. -/
structure BuildState where
  nodes : List LinearKDTreeNode
  linear_triangle_indices : List Nat
  indices_below : List Nat
  indices_above : List Nat
deriving DecidableEq, Repr

/-- Write consecutive values into a buffer starting at an absolute index;
`none` models the `index out of bounds` panic of a Rust slice write. -/
def writeSeq : List Nat → Nat → List Nat → Option (List Nat)
  | l, _, [] => some l
  | l, i, v :: vs => if i < l.length then writeSeq (l.set i v) (i + 1) vs else none

/-- The `edges` vector built by an inner `build_node` frame: for each active
triangle a begin edge at `bb.min[axis]` and an end edge at `bb.max[axis]`. -/
def triEdges (tbbs : List AABB) (axis : Axis) : List Nat → List BoundEdge
  | [] => []
  | ti :: rest =>
    let bb := tbbs.getD ti ⟨Vec3.zero, Vec3.zero⟩
    ⟨bb.min.nth axis, ti, false⟩ :: ⟨bb.max.nth axis, ti, true⟩ :: triEdges tbbs axis rest

/-- Comparison used to sort edges (`partial_cmp` on `f32` positions; total on
`ℚ`). -/
def edgeLe (a b : BoundEdge) : Prop := a.position ≤ b.position

instance : DecidableRel edgeLe := fun a b =>
  inferInstanceAs (Decidable (a.position ≤ b.position))

/-- `edges.sort_unstable_by(...)` -- modelled by insertion sort; the source's
unstable sort may order equal positions differently, which moves triangle
indices between equal-position edges but never changes how any single edge
compares against the split position. -/
def sortEdges (l : List BoundEdge) : List BoundEdge := List.insertionSort edgeLe l

/-- The split position chosen by an inner `build_node` frame: the midpoint of
the two central sorted edge positions
(`(edges[len/2].position + edges[len/2+1].position) * 0.5`). -/
def medianSplit (edges : List BoundEdge) : ℚ :=
  ((edges.getD (edges.length / 2) ⟨0, 0, false⟩).position +
   (edges.getD (edges.length / 2 + 1) ⟨0, 0, false⟩).position) * (1 / 2)

/-- First partition loop of `build_node`: triangle indices of the begin edges
at positions `≤ split` (the loop walks the sorted edges while
`position ≤ split_position`, collecting `!is_end` entries). -/
def splitBelows (edges : List BoundEdge) (split_position : ℚ) : List Nat :=
  ((edges.takeWhile fun e => e.position ≤ split_position).filter
    fun e => !e.is_end).map fun e => e.triangle_index

/-- Second partition loop of `build_node`: triangle indices of the end edges
among the remaining (position `> split`) edges. -/
def splitAboves (edges : List BoundEdge) (split_position : ℚ) : List Nat :=
  ((edges.dropWhile fun e => e.position ≤ split_position).filter
    fun e => e.is_end).map fun e => e.triangle_index

/-- The triangle indices a `build_node` frame works on: a prefix of
`indices_below`, or a window of `indices_above` starting at the frame's slice
offset. -/
def activeIndices (is_above : Bool) (count aStart : Nat) (st : BuildState) :
    List Nat :=
  if is_above then (st.indices_above.drop aStart).take count
  else st.indices_below.take count

/-- `mesh.rs` lines 262-368: `LinearKDTree::build_node`, transcribed with the
scratch-buffer writes made explicit.  Arguments mirror the source: remaining
depth, which scratch buffer holds this node's triangles, their count, the
node's bounding box, the absolute start of this frame's `indices_above`
sub-slice, and the build state.  `none` models a panicking scratch write. -/
def build_node (opts : KDTreeOptions) (tbbs : List AABB) :
    Nat → Bool → Nat → AABB → Nat → BuildState → Option BuildState
  | depth_remaining, is_above, triangle_count, nbb, above_start, st =>
    let triangle_indices := activeIndices is_above triangle_count above_start st
    if triangle_count ≤ opts.max_leaf_size ∨ depth_remaining = 0 then
      some { st with
        nodes := st.nodes ++ [.leaf triangle_count st.linear_triangle_indices.length],
        linear_triangle_indices := st.linear_triangle_indices ++ triangle_indices }
    else
      match depth_remaining with
      | 0 => none
      | d + 1 =>
        let split_axis := nbb.maximum_extent
        let edges := sortEdges (triEdges tbbs split_axis triangle_indices)
        let split_position := medianSplit edges
        let belows := splitBelows edges split_position
        let aboves := splitAboves edges split_position
        let n_below := belows.length
        let n_above := aboves.length
        match writeSeq st.indices_below 0 belows with
        | none => none
        | some below1 =>
          match writeSeq st.indices_above above_start aboves with
          | none => none
          | some above1 =>
            let node_index := st.nodes.length
            let st1 : BuildState :=
              { st with
                nodes := st.nodes ++ [.inner 0 split_axis split_position],
                indices_below := below1,
                indices_above := above1 }
            let bb_below : AABB := ⟨nbb.min, nbb.max.setNth split_axis split_position⟩
            match build_node opts tbbs d false n_below bb_below
                (above_start + n_above) st1 with
            | none => none
            | some st2 =>
              let second_child_index := st2.nodes.length
              let st3 : BuildState :=
                { st2 with
                  nodes := st2.nodes.set node_index
                    ((st2.nodes.getD node_index (.leaf 0 0)).set_above_child_index
                      second_child_index) }
              let bb_above : AABB := ⟨nbb.min.setNth split_axis split_position, nbb.max⟩
              build_node opts tbbs d true n_above bb_above above_start st3

/-- `triangle_bounding_boxes` computed in `LinearKDTree::build`. -/
def triangle_bounding_boxes (data : MeshData) : List AABB :=
  data.triangles.map fun tri =>
    AABB.from_triangle
      (data.get_vertex_position tri.position_indices.1)
      (data.get_vertex_position tri.position_indices.2.1)
      (data.get_vertex_position tri.position_indices.2.2)

/-- The fold of `AABB::union` over the triangle boxes starting from
`AABB::empty`.  `AABB::empty` uses `±∞` corners (no rational counterpart), but
union with any box yields that box, so for a non-empty mesh the fold from the
first box is identical; for an empty mesh an inverted sentinel box stands in. -/
def root_bounding_box (tbbs : List AABB) : AABB :=
  match tbbs with
  | [] => ⟨⟨1, 1, 1⟩, ⟨-1, -1, -1⟩⟩
  | b :: rest => rest.foldl AABB.union b

/-- `mesh.rs`: the linear KD-tree (the `debug` flag and the
`intersect_stack_capacity` heuristic only affect logging and the traversal
stack's initial allocation). -/
structure LinearKDTree where
  nodes : List LinearKDTreeNode
  linear_triangle_indices : List Nat
  bounding_box : AABB
  data : MeshData
deriving DecidableEq, Repr

/-- `mesh.rs` lines 187-245: `LinearKDTree::build` with the source's scratch
allocation (`indices_below = [0..N)`, `indices_above = [0; (max_depth+1)·N]`);
the resolved `max_depth` is an explicit argument (see `KDTreeOptions`). -/
def LinearKDTree.build (data : MeshData) (max_depth : Nat)
    (opts : KDTreeOptions) : Option LinearKDTree :=
  let triangle_count := data.triangles.length
  let tbbs := triangle_bounding_boxes data
  let rbb := root_bounding_box tbbs
  let st0 : BuildState :=
    { nodes := []
      linear_triangle_indices := []
      indices_below := List.range triangle_count
      indices_above := List.replicate ((max_depth + 1) * triangle_count) 0 }
  match build_node opts tbbs max_depth false triangle_count rbb 0 st0 with
  | none => none
  | some st => some ⟨st.nodes, st.linear_triangle_indices, rbb, data⟩

/-- `mesh.rs`: an entry of the traversal to-do stack. -/
structure ToDoItem where
  node_index : Nat
  t_min : ℚ
  t_max : ℚ
deriving DecidableEq, Repr

/-- The items one iteration of the `LinearKDTree::intersect` loop pushes for
the popped entry `it`, head = new top of stack (the source pushes far first,
then near, onto a LIFO stack): nothing for a leaf; for an inner node the
near child alone (interval unchanged) when `t_split > t_max || t_split ≤ 0`,
the far child alone when `t_split < t_min`, and otherwise near with
`(t_min, t_split)` above far with `(t_split, t_max)`. -/
def pushedItems (ray : Ray) (inv_dir : Vec3) (node : LinearKDTreeNode)
    (it : ToDoItem) : List ToDoItem :=
  match node with
  | .leaf _ _ => []
  | .inner above_child_index split_axis split_position =>
    let origin_position := ray.origin.nth split_axis
    let t_split := (split_position - origin_position) * inv_dir.nth split_axis
    let near_is_below : Prop := origin_position < split_position ∨
      (origin_position = split_position ∧ ray.direction.nth split_axis ≤ 0)
    let first_child_index :=
      if near_is_below then it.node_index + 1 else above_child_index
    let second_child_index :=
      if near_is_below then above_child_index else it.node_index + 1
    if t_split > it.t_max ∨ t_split ≤ 0 then
      [⟨first_child_index, it.t_min, it.t_max⟩]
    else if t_split < it.t_min then
      [⟨second_child_index, it.t_min, it.t_max⟩]
    else
      [⟨first_child_index, it.t_min, t_split⟩, ⟨second_child_index, t_split, it.t_max⟩]

/-- The leaf body of the traversal loop: test the ray against each listed
triangle, keeping the strictly nearest hit (`mesh.rs` lines 477-493). -/
def testTriangles (data : MeshData) (ray : Ray) :
    List Nat → Option (Nat × TriangleHit) → Option (Nat × TriangleHit)
  | [], nearest => nearest
  | ti :: rest, nearest =>
    let vs := data.triVerts ti
    let nearest' :=
      match intersect_triangle ray vs.1 vs.2.1 vs.2.2 with
      | none => nearest
      | some hit =>
        match nearest with
        | some (_, current) =>
          if hit.distance < current.distance then some (ti, hit) else nearest
        | none => some (ti, hit)
    testTriangles data ray rest nearest'

/-- `mesh.rs` lines 409-495: the `while let Some(...) = todo_stack.pop()` loop
of `LinearKDTree::intersect`, with an explicit stack (head = top) and fuel.
The loop terminates because both children of an inner node have strictly
larger node indices; the fuel passed by `LinearKDTree.intersect` dominates the
iteration count of every such tree, and if it ran out the model would return
the current nearest hit just as the source's `break` does. -/
def intersectLoop (nodes : List LinearKDTreeNode) (lti : List Nat)
    (data : MeshData) (ray : Ray) (inv_dir : Vec3) :
    Nat → List ToDoItem → Option (Nat × TriangleHit) → Option (Nat × TriangleHit)
  | 0, _, nearest => nearest
  | _ + 1, [], nearest => nearest
  | fuel + 1, it :: rest, nearest =>
    let bail : Bool :=
      match nearest with
      | some (_, nh) => decide (nh.distance < it.t_min)
      | none => false
    if bail then
      nearest
    else
      match nodes.getD it.node_index (.leaf 0 0) with
      | .leaf triangle_count triangles_start_index =>
        let triangle_indices := (lti.drop triangles_start_index).take triangle_count
        intersectLoop nodes lti data ray inv_dir fuel rest
          (testTriangles data ray triangle_indices nearest)
      | .inner a ax sp =>
        intersectLoop nodes lti data ray inv_dir fuel
          (pushedItems ray inv_dir (.inner a ax sp) it ++ rest) nearest

/-- `mesh.rs` lines 391-543: `LinearKDTree::intersect`, projected onto the
nearest `(triangle_index, TriangleHit)` pair.  The source's final `map` stage
turns this pair into a `Hit` whose `distance` field is
`triangle_hit.distance` unchanged (the interpolated normal and tex-coords
need `normalize`, which has no exact rational counterpart, and do not affect
hit existence or distance). -/
def LinearKDTree.intersect (t : LinearKDTree) (ray : Ray) :
    Option (Nat × TriangleHit) :=
  match t.bounding_box.intersects_p ray with
  | none => none
  | some (bb_t_min, bb_t_max) =>
    let inv_dir := ray.direction.recip
    intersectLoop t.nodes t.linear_triangle_indices t.data ray inv_dir
      (2 ^ (t.nodes.length + 1)) [⟨0, bb_t_min, bb_t_max⟩] none

/-- Modelled from the spec: the brute-force linear scan C1 compares the
KD-tree against -- "a brute-force scan running `intersect_triangle` on every
triangle of the mesh", keeping the strictly nearest hit (the same update rule
the KD-tree's leaf loop uses). -/
def bruteForceIntersect (data : MeshData) (ray : Ray) :
    Option (Nat × TriangleHit) :=
  testTriangles data ray (List.range data.triangles.length) none

/-- `getD` after an out-of-place `set`. -/
theorem getD_set_of_ne {α : Type} (l : List α) (i j : Nat) (v d : α) (h : i ≠ j) :
    (l.set j v).getD i d = l.getD i d := by
  simp [List.getD_eq_getD_get?, List.getElem?_set_ne (Ne.symm h)]

/-- `getD` at an in-bounds `set`. -/
theorem getD_set_self {α : Type} (l : List α) (j : Nat) (v d : α) (h : j < l.length) :
    (l.set j v).getD j d = v := by
  simp [List.getD_eq_getD_get?, List.getElem?_set_self, h]

/-- `writeSeq` succeeds on an in-bounds range, preserves the length and the
prefix before the range, and only introduces values from the written list. -/
theorem writeSeq_spec : ∀ (vals l : List Nat) (start : Nat),
    start + vals.length ≤ l.length →
    ∃ l', writeSeq l start vals = some l' ∧ l'.length = l.length ∧
      (∀ j, j < start → l'.getD j 0 = l.getD j 0) ∧
      (∀ x ∈ l', x ∈ l ∨ x ∈ vals)
  | [], l, start, _ => ⟨l, rfl, rfl, fun _ _ => rfl, fun _ hx => Or.inl hx⟩
  | v :: vs, l, start, h => by
    have hvs : (v :: vs).length = vs.length + 1 := rfl
    rw [hvs] at h
    have hlt : start < l.length := by omega
    have h' : (start + 1) + vs.length ≤ (l.set start v).length := by
      rw [List.length_set]
      omega
    obtain ⟨l', he, hlen, hpre, hmem⟩ := writeSeq_spec vs (l.set start v) (start + 1) h'
    refine ⟨l', ?_, by rw [hlen, List.length_set], ?_, ?_⟩
    · rw [writeSeq, if_pos hlt, he]
    · intro j hj
      rw [hpre j (by omega), getD_set_of_ne _ _ _ _ _ (by omega)]
    · intro x hx
      rcases hmem x hx with hx' | hx'
      · rcases List.mem_or_eq_of_mem_set hx' with h1 | h1
        · exact Or.inl h1
        · exact Or.inr (h1 ▸ List.mem_cons_self v vs)
      · exact Or.inr (List.mem_cons_of_mem _ hx')

/-- Each active triangle contributes exactly one begin edge. -/
theorem triEdges_countP_begin (tbbs : List AABB) (ax : Axis) :
    ∀ tis : List Nat,
      (triEdges tbbs ax tis).countP (fun e => !e.is_end) = tis.length
  | [] => rfl
  | ti :: rest => by
    simp [triEdges, List.countP_cons, triEdges_countP_begin tbbs ax rest]

/-- Each active triangle contributes exactly one end edge. -/
theorem triEdges_countP_end (tbbs : List AABB) (ax : Axis) :
    ∀ tis : List Nat,
      (triEdges tbbs ax tis).countP (fun e => e.is_end) = tis.length
  | [] => rfl
  | ti :: rest => by
    simp [triEdges, List.countP_cons, triEdges_countP_end tbbs ax rest]

/-- Every edge's triangle index is one of the active triangles. -/
theorem triEdges_mem (tbbs : List AABB) (ax : Axis) :
    ∀ (tis : List Nat) (e : BoundEdge), e ∈ triEdges tbbs ax tis →
      e.triangle_index ∈ tis
  | ti :: rest, e, h => by
    rw [triEdges] at h
    rcases List.mem_cons.mp h with h | h
    · rw [h]
      exact List.mem_cons_self _ _
    · rcases List.mem_cons.mp h with h | h
      · rw [h]
        exact List.mem_cons_self _ _
      · exact List.mem_cons_of_mem _ (triEdges_mem tbbs ax rest e h)

theorem sortEdges_perm (l : List BoundEdge) : (sortEdges l).Perm l :=
  List.perm_insertionSort edgeLe l

/-- The exclusive end of the depth-first block a subtree occupies in the node
array: a leaf at `p` spans `[p, p+1)`; an inner node at `p` requires its below
subtree to start at `p+1` and end exactly at its stored above-child index `a`,
and its own block then ends where the above subtree ends.  `some e` certifies
the "reserve slot, recurse below, patch above-index, recurse above" layout. -/
def subtreeEnd (nodes : List LinearKDTreeNode) : Nat → Nat → Option Nat
  | 0, _ => none
  | fuel + 1, p =>
    match nodes.getD p (.leaf 0 0) with
    | .leaf _ _ => some (p + 1)
    | .inner a _ _ =>
      match subtreeEnd nodes fuel (p + 1) with
      | none => none
      | some e1 => if e1 = a then subtreeEnd nodes fuel a else none

theorem subtreeEnd_gt (nodes : List LinearKDTreeNode) :
    ∀ (fuel p e : Nat), subtreeEnd nodes fuel p = some e → p < e := by
  intro fuel
  induction fuel with
  | zero => intro p e h; exact Option.noConfusion h
  | succ f ih =>
    intro p e h
    rw [subtreeEnd] at h
    rcases hn : nodes.getD p (.leaf 0 0) with ⟨c, s⟩ | ⟨a, ax, sp⟩
    · rw [hn] at h
      simp only [Option.some.injEq] at h
      omega
    · rw [hn] at h
      simp only [] at h
      rcases h1 : subtreeEnd nodes f (p + 1) with - | e1
      · rw [h1] at h
        exact Option.noConfusion h
      · rw [h1] at h
        simp only [] at h
        by_cases he1 : e1 = a
        · rw [if_pos he1] at h
          have hpe1 := ih (p + 1) e1 h1
          have hae := ih a e h
          omega
        · rw [if_neg he1] at h
          exact Option.noConfusion h

/-- `subtreeEnd` only inspects the nodes inside the block it certifies, so it
is stable under changes outside `[p, e)`. -/
theorem subtreeEnd_stable (nodes nodes' : List LinearKDTreeNode) :
    ∀ (fuel p e : Nat), subtreeEnd nodes fuel p = some e →
      (∀ j, p ≤ j → j < e → nodes'.getD j (.leaf 0 0) = nodes.getD j (.leaf 0 0)) →
      subtreeEnd nodes' fuel p = some e := by
  intro fuel
  induction fuel with
  | zero => intro p e h; exact absurd h (by simp [subtreeEnd])
  | succ f ih =>
    intro p e h hstable
    have hpe : p < e := subtreeEnd_gt nodes (f + 1) p e h
    rw [subtreeEnd] at h ⊢
    rw [hstable p (le_refl p) hpe]
    rcases hn : nodes.getD p (.leaf 0 0) with ⟨c, s⟩ | ⟨a, ax, sp⟩
    · rw [hn] at h
      exact h
    · rw [hn] at h
      simp only [] at h ⊢
      rcases h1 : subtreeEnd nodes f (p + 1) with - | e1
      · rw [h1] at h
        simp only [] at h
        exact Option.noConfusion h
      · rw [h1] at h
        simp only [] at h
        by_cases he1 : e1 = a
        · rw [if_pos he1] at h
          have hpe1 := subtreeEnd_gt nodes f (p + 1) e1 h1
          have hae := subtreeEnd_gt nodes f a e h
          have h1' : subtreeEnd nodes' f (p + 1) = some e1 := by
            refine ih (p + 1) e1 h1 ?_
            intro j hj1 hj2
            exact hstable j (by omega) (by omega)
          have h2' : subtreeEnd nodes' f a = some e := by
            refine ih a e h ?_
            intro j hj1 hj2
            exact hstable j (by omega) (by omega)
          rw [h1']
          simp only []
          rw [if_pos he1, h2']
        · rw [if_neg he1] at h
          exact Option.noConfusion h

theorem splitBelows_length_le (tbbs : List AABB) (ax : Axis) (tis : List Nat)
    (sp : ℚ) :
    (splitBelows (sortEdges (triEdges tbbs ax tis)) sp).length ≤ tis.length := by
  rw [splitBelows, List.length_map]
  have h1 : (((sortEdges (triEdges tbbs ax tis)).takeWhile
      fun e => decide (e.position ≤ sp)).filter fun e => !e.is_end).length =
      ((sortEdges (triEdges tbbs ax tis)).takeWhile
        fun e => decide (e.position ≤ sp)).countP fun e => !e.is_end := by
    rw [List.countP_eq_length_filter]
  have h2 := List.Sublist.countP_le (fun e => !e.is_end)
    (@List.takeWhile_sublist BoundEdge (sortEdges (triEdges tbbs ax tis))
      fun e => decide (e.position ≤ sp))
  have h3 := (sortEdges_perm (triEdges tbbs ax tis)).countP_eq
    (fun e => !e.is_end)
  have h4 := triEdges_countP_begin tbbs ax tis
  omega

theorem splitAboves_length_le (tbbs : List AABB) (ax : Axis) (tis : List Nat)
    (sp : ℚ) :
    (splitAboves (sortEdges (triEdges tbbs ax tis)) sp).length ≤ tis.length := by
  rw [splitAboves, List.length_map]
  have h1 : (((sortEdges (triEdges tbbs ax tis)).dropWhile
      fun e => decide (e.position ≤ sp)).filter fun e => e.is_end).length =
      ((sortEdges (triEdges tbbs ax tis)).dropWhile
        fun e => decide (e.position ≤ sp)).countP fun e => e.is_end := by
    rw [List.countP_eq_length_filter]
  have h2 := List.Sublist.countP_le (fun e => e.is_end)
    (@List.dropWhile_sublist BoundEdge (sortEdges (triEdges tbbs ax tis))
      fun e => decide (e.position ≤ sp))
  have h3 := (sortEdges_perm (triEdges tbbs ax tis)).countP_eq
    (fun e => e.is_end)
  have h4 := triEdges_countP_end tbbs ax tis
  omega

theorem splitBelows_mem (tbbs : List AABB) (ax : Axis) (tis : List Nat) (sp : ℚ)
    (x : Nat) (hx : x ∈ splitBelows (sortEdges (triEdges tbbs ax tis)) sp) :
    x ∈ tis := by
  rw [splitBelows] at hx
  obtain ⟨e, he, hex⟩ := List.mem_map.mp hx
  have he1 := List.mem_of_mem_filter he
  have he2 := (List.takeWhile_sublist _).mem he1
  have he3 := (sortEdges_perm _).mem_iff.mp he2
  rw [← hex]
  exact triEdges_mem tbbs ax tis e he3

theorem splitAboves_mem (tbbs : List AABB) (ax : Axis) (tis : List Nat) (sp : ℚ)
    (x : Nat) (hx : x ∈ splitAboves (sortEdges (triEdges tbbs ax tis)) sp) :
    x ∈ tis := by
  rw [splitAboves] at hx
  obtain ⟨e, he, hex⟩ := List.mem_map.mp hx
  have he1 := List.mem_of_mem_filter he
  have he2 := (List.dropWhile_sublist _).mem he1
  have he3 := (sortEdges_perm _).mem_iff.mp he2
  rw [← hex]
  exact triEdges_mem tbbs ax tis e he3

theorem activeIndices_mem (is_above : Bool) (count aStart : Nat)
    (st : BuildState) (x : Nat) (hx : x ∈ activeIndices is_above count aStart st) :
    x ∈ st.indices_below ∨ x ∈ st.indices_above := by
  rw [activeIndices] at hx
  cases is_above with
  | false =>
    simp only [if_neg Bool.false_ne_true] at hx
    exact Or.inl (List.mem_of_mem_take hx)
  | true =>
    simp only [if_pos rfl] at hx
    exact Or.inr (List.mem_of_mem_drop (List.mem_of_mem_take hx))

/-- Everything one `build_node` call preserves or establishes, stated against
the pre-call state: scratch lengths are unchanged; the `indices_above` prefix
before the frame's slice offset is untouched; scratch entries, like before,
only hold triangle indices `< n`; `nodes` and `linear_triangle_indices` only
grow (and at least one node is emitted); and every *newly emitted* inner node
stores a patched above-child index strictly between its own successor and the
end of the array. -/
def buildPreserved (n aStart : Nat) (st st' : BuildState) : Prop :=
  st'.indices_below.length = st.indices_below.length ∧
  st'.indices_above.length = st.indices_above.length ∧
  (∀ j, j < aStart → st'.indices_above.getD j 0 = st.indices_above.getD j 0) ∧
  (∀ x ∈ st'.indices_below, x < n) ∧
  (∀ x ∈ st'.indices_above, x < n) ∧
  (∃ newNodes, st'.nodes = st.nodes ++ newNodes ∧ newNodes ≠ []) ∧
  (∃ newIdx, st'.linear_triangle_indices = st.linear_triangle_indices ++ newIdx) ∧
  (∀ x ∈ st'.linear_triangle_indices, x < n) ∧
  (∀ p, st.nodes.length ≤ p → ∀ a ax sp,
    st'.nodes.getD p (.leaf 0 0) = .inner a ax sp →
    p + 1 < a ∧ a < st'.nodes.length)

/-- Unfolding of `build_node` in the leaf case. -/
theorem build_node_leaf_eq (opts : KDTreeOptions) (tbbs : List AABB)
    (depth : Nat) (is_above : Bool) (count : Nat) (nbb : AABB) (aStart : Nat)
    (st : BuildState) (hcond : count ≤ opts.max_leaf_size ∨ depth = 0) :
    build_node opts tbbs depth is_above count nbb aStart st =
      some { st with
        nodes := st.nodes ++ [.leaf count st.linear_triangle_indices.length],
        linear_triangle_indices :=
          st.linear_triangle_indices ++ activeIndices is_above count aStart st } := by
  rw [build_node.eq_def]
  simp only []
  rw [if_pos hcond]

/-- The sorted edge list an inner `build_node` frame works with. -/
def frameEdges (tbbs : List AABB) (is_above : Bool) (count aStart : Nat)
    (nbb : AABB) (st : BuildState) : List BoundEdge :=
  sortEdges (triEdges tbbs nbb.maximum_extent (activeIndices is_above count aStart st))

/-- The frame's split position. -/
def frameSplit (tbbs : List AABB) (is_above : Bool) (count aStart : Nat)
    (nbb : AABB) (st : BuildState) : ℚ :=
  medianSplit (frameEdges tbbs is_above count aStart nbb st)

/-- The frame's below working set. -/
def frameBelows (tbbs : List AABB) (is_above : Bool) (count aStart : Nat)
    (nbb : AABB) (st : BuildState) : List Nat :=
  splitBelows (frameEdges tbbs is_above count aStart nbb st)
    (frameSplit tbbs is_above count aStart nbb st)

/-- The frame's above working set. -/
def frameAboves (tbbs : List AABB) (is_above : Bool) (count aStart : Nat)
    (nbb : AABB) (st : BuildState) : List Nat :=
  splitAboves (frameEdges tbbs is_above count aStart nbb st)
    (frameSplit tbbs is_above count aStart nbb st)

/-- Unfolding of `build_node` in the inner (split) case. -/
theorem build_node_inner_eq (opts : KDTreeOptions) (tbbs : List AABB)
    (d : Nat) (is_above : Bool) (count : Nat) (nbb : AABB) (aStart : Nat)
    (st : BuildState) (hcond : ¬(count ≤ opts.max_leaf_size ∨ d + 1 = 0)) :
    build_node opts tbbs (d + 1) is_above count nbb aStart st =
      (match writeSeq st.indices_below 0 (frameBelows tbbs is_above count aStart nbb st) with
       | none => none
       | some below1 =>
         match writeSeq st.indices_above aStart
             (frameAboves tbbs is_above count aStart nbb st) with
         | none => none
         | some above1 =>
           match build_node opts tbbs d false
               (frameBelows tbbs is_above count aStart nbb st).length
               ⟨nbb.min, nbb.max.setNth nbb.maximum_extent
                 (frameSplit tbbs is_above count aStart nbb st)⟩
               (aStart + (frameAboves tbbs is_above count aStart nbb st).length)
               { st with
                 nodes := st.nodes ++ [.inner 0 nbb.maximum_extent
                   (frameSplit tbbs is_above count aStart nbb st)]
                 indices_below := below1
                 indices_above := above1 } with
           | none => none
           | some st2 =>
             build_node opts tbbs d true
               (frameAboves tbbs is_above count aStart nbb st).length
               ⟨nbb.min.setNth nbb.maximum_extent
                 (frameSplit tbbs is_above count aStart nbb st), nbb.max⟩ aStart
               { st2 with
                 nodes := st2.nodes.set st.nodes.length
                   ((st2.nodes.getD st.nodes.length
                     (.leaf 0 0)).set_above_child_index st2.nodes.length) }) := by
  rw [build_node.eq_def]
  simp only []
  rw [if_neg hcond]
  rfl

/-- The master facts in the leaf case. -/
theorem build_node_master_leaf (opts : KDTreeOptions) (tbbs : List AABB)
    (n : Nat) (depth : Nat) (is_above : Bool) (count : Nat) (nbb : AABB)
    (aStart : Nat) (st : BuildState)
    (hcond : count ≤ opts.max_leaf_size ∨ depth = 0)
    (h1 : ∀ x ∈ st.indices_below, x < n)
    (h2 : ∀ x ∈ st.indices_above, x < n)
    (h3 : ∀ x ∈ st.linear_triangle_indices, x < n) :
    ∃ st', build_node opts tbbs depth is_above count nbb aStart st = some st' ∧
      buildPreserved n aStart st st' ∧
      subtreeEnd st'.nodes (depth + 1) st.nodes.length = some st'.nodes.length := by
  refine ⟨_, build_node_leaf_eq opts tbbs depth is_above count nbb aStart st hcond,
    ⟨rfl, rfl, fun j hj => rfl, h1, h2,
      ⟨[.leaf count st.linear_triangle_indices.length], rfl, by simp⟩,
      ⟨activeIndices is_above count aStart st, rfl⟩, ?_, ?_⟩, ?_⟩
  · intro x hx
    rcases List.mem_append.mp hx with hx | hx
    · exact h3 x hx
    · rcases activeIndices_mem is_above count aStart st x hx with h | h
      · exact h1 x h
      · exact h2 x h
  · intro p hp a ax sp hget
    exfalso
    rw [List.getD_append_right st.nodes _ _ _ hp] at hget
    rcases Nat.eq_or_lt_of_le hp with hp' | hp'
    · rw [← hp', Nat.sub_self] at hget
      exact LinearKDTreeNode.noConfusion hget
    · rw [List.getD_eq_default] at hget
      · exact LinearKDTreeNode.noConfusion hget
      · simp only [List.length_singleton]
        omega
  · rw [subtreeEnd]
    have hgl : (st.nodes ++
        [LinearKDTreeNode.leaf count st.linear_triangle_indices.length]).getD
        st.nodes.length (.leaf 0 0) =
        .leaf count st.linear_triangle_indices.length := by
      rw [List.getD_append_right st.nodes _ _ _ (le_refl _), Nat.sub_self]
      rfl
    rw [hgl]
    simp [List.length_append]

/-- Setting the element just past a left append segment. -/
theorem set_append_len {A : Type} (l1 l2 : List A) (v : A) :
    (l1 ++ l2).set l1.length v = l1 ++ l2.set 0 v := by
  induction l1 with
  | nil => rfl
  | cons a l ihl => simp [List.set, ihl]

/-- The master induction over the build recursion: with the capacity invariant
`aStart + (depth+1)·count ≤ |indices_above|` (and `count ≤ |indices_below|`),
every `build_node` call succeeds -- no scratch write is out of bounds --
preserves the `indices_above` prefix before its slice offset, keeps all
scratch/output entries below the triangle count, and emits a well-formed
depth-first block (`subtreeEnd`). -/
theorem build_node_master (opts : KDTreeOptions) (tbbs : List AABB) (n : Nat) :
    ∀ (depth : Nat) (is_above : Bool) (count : Nat) (nbb : AABB) (aStart : Nat)
      (st : BuildState),
      (∀ x ∈ st.indices_below, x < n) →
      (∀ x ∈ st.indices_above, x < n) →
      (∀ x ∈ st.linear_triangle_indices, x < n) →
      count ≤ st.indices_below.length →
      (is_above = true → aStart + count ≤ st.indices_above.length) →
      aStart + (depth + 1) * count ≤ st.indices_above.length →
      ∃ st', build_node opts tbbs depth is_above count nbb aStart st = some st' ∧
        buildPreserved n aStart st st' ∧
        subtreeEnd st'.nodes (depth + 1) st.nodes.length = some st'.nodes.length := by
  intro depth
  induction depth with
  | zero =>
    intro is_above count nbb aStart st h1 h2 h3 h4 h5 h6
    exact build_node_master_leaf opts tbbs n 0 is_above count nbb aStart st
      (Or.inr rfl) h1 h2 h3
  | succ d ih =>
    intro is_above count nbb aStart st h1 h2 h3 h4 h5 h6
    by_cases hleaf : count ≤ opts.max_leaf_size
    · exact build_node_master_leaf opts tbbs n (d + 1) is_above count nbb aStart st
        (Or.inl hleaf) h1 h2 h3
    · have hcond : ¬(count ≤ opts.max_leaf_size ∨ d + 1 = 0) := by
        rintro (h | h)
        · exact hleaf h
        · omega
      have htis_len : (activeIndices is_above count aStart st).length ≤ count := by
        rw [activeIndices]
        cases is_above
        · simp [List.length_take]
        · simp [List.length_take]
      have htis_mem : ∀ x ∈ activeIndices is_above count aStart st, x < n := by
        intro x hx
        rcases activeIndices_mem is_above count aStart st x hx with h | h
        · exact h1 x h
        · exact h2 x h
      have hbl : (frameBelows tbbs is_above count aStart nbb st).length ≤ count := by
        rw [frameBelows, frameEdges, frameSplit, frameEdges]
        exact le_trans (splitBelows_length_le tbbs nbb.maximum_extent _ _) htis_len
      have hal : (frameAboves tbbs is_above count aStart nbb st).length ≤ count := by
        rw [frameAboves, frameEdges, frameSplit, frameEdges]
        exact le_trans (splitAboves_length_le tbbs nbb.maximum_extent _ _) htis_len
      have hb_mem : ∀ x ∈ frameBelows tbbs is_above count aStart nbb st, x < n := by
        intro x hx
        rw [frameBelows, frameEdges, frameSplit, frameEdges] at hx
        exact htis_mem x (splitBelows_mem tbbs nbb.maximum_extent _ _ x hx)
      have ha_mem : ∀ x ∈ frameAboves tbbs is_above count aStart nbb st, x < n := by
        intro x hx
        rw [frameAboves, frameEdges, frameSplit, frameEdges] at hx
        exact htis_mem x (splitAboves_mem tbbs nbb.maximum_extent _ _ x hx)
      have hKsum : (d + 1) * count + count = (d + 1 + 1) * count := by ring
      have hKB : (d + 1) * (frameBelows tbbs is_above count aStart nbb st).length ≤
          (d + 1) * count := Nat.mul_le_mul (Nat.le_refl (d + 1)) hbl
      have hKA : (d + 1) * (frameAboves tbbs is_above count aStart nbb st).length ≤
          (d + 1) * count := Nat.mul_le_mul (Nat.le_refl (d + 1)) hal
      obtain ⟨below1, hwb, hwb_len, hwb_pre, hwb_mem⟩ :=
        writeSeq_spec (frameBelows tbbs is_above count aStart nbb st)
          st.indices_below 0 (by omega)
      obtain ⟨above1, hwa, hwa_len, hwa_pre, hwa_mem⟩ :=
        writeSeq_spec (frameAboves tbbs is_above count aStart nbb st)
          st.indices_above aStart (by omega)
      obtain ⟨st2, hcall2, hpres2, hsub2⟩ :=
        ih false (frameBelows tbbs is_above count aStart nbb st).length
          ⟨nbb.min, nbb.max.setNth nbb.maximum_extent
            (frameSplit tbbs is_above count aStart nbb st)⟩
          (aStart + (frameAboves tbbs is_above count aStart nbb st).length)
          { st with
            nodes := st.nodes ++ [.inner 0 nbb.maximum_extent
              (frameSplit tbbs is_above count aStart nbb st)]
            indices_below := below1
            indices_above := above1 }
          (fun x hx => (hwb_mem x hx).elim (h1 x) (hb_mem x))
          (fun x hx => (hwa_mem x hx).elim (h2 x) (ha_mem x))
          h3
          (by show (frameBelows tbbs is_above count aStart nbb st).length ≤
                below1.length
              omega)
          (fun h => Bool.noConfusion h)
          (by show aStart + (frameAboves tbbs is_above count aStart nbb st).length +
                (d + 1) * (frameBelows tbbs is_above count aStart nbb st).length ≤
                above1.length
              omega)
      obtain ⟨hp2_bl, hp2_al, hp2_pre, hp2_bmem, hp2_amem,
        ⟨new2, hnew2, hnew2ne⟩, ⟨newL2, hnewL2⟩, hp2_lti, hp2_layout⟩ := hpres2
      have hb2len : st2.indices_below.length = below1.length := hp2_bl
      have ha2len : st2.indices_above.length = above1.length := hp2_al
      have hpre2 : ∀ j, j < aStart +
          (frameAboves tbbs is_above count aStart nbb st).length →
          st2.indices_above.getD j 0 = above1.getD j 0 := hp2_pre
      have hnew2' : st2.nodes = (st.nodes ++ [LinearKDTreeNode.inner 0
          nbb.maximum_extent (frameSplit tbbs is_above count aStart nbb st)]) ++
          new2 := hnew2
      have hnew2pos : 0 < new2.length := List.length_pos.mpr hnew2ne
      have hst2_ge : st.nodes.length + 2 ≤ st2.nodes.length := by
        rw [hnew2']
        simp [List.length_append]
        omega
      have hsub2' : subtreeEnd st2.nodes (d + 1) (st.nodes.length + 1) =
          some st2.nodes.length := by
        have := hsub2
        simpa [List.length_append] using this
      have hgp0 : st2.nodes.getD st.nodes.length (.leaf 0 0) =
          .inner 0 nbb.maximum_extent
            (frameSplit tbbs is_above count aStart nbb st) := by
        rw [hnew2', List.getD_append _ _ _ _ (by simp [List.length_append])]
        rw [List.getD_append_right st.nodes _ _ _ (le_refl _), Nat.sub_self]
        rfl
      obtain ⟨st4, hcall4, hpres4, hsub4⟩ :=
        ih true (frameAboves tbbs is_above count aStart nbb st).length
          ⟨nbb.min.setNth nbb.maximum_extent
            (frameSplit tbbs is_above count aStart nbb st), nbb.max⟩ aStart
          { st2 with
            nodes := st2.nodes.set st.nodes.length
              ((st2.nodes.getD st.nodes.length
                (.leaf 0 0)).set_above_child_index st2.nodes.length) }
          hp2_bmem hp2_amem hp2_lti
          (by show (frameAboves tbbs is_above count aStart nbb st).length ≤
                st2.indices_below.length
              omega)
          (fun _ => by
            show aStart + (frameAboves tbbs is_above count aStart nbb st).length ≤
              st2.indices_above.length
            omega)
          (by show aStart + (d + 1) *
                (frameAboves tbbs is_above count aStart nbb st).length ≤
                st2.indices_above.length
              omega)
      obtain ⟨hp4_bl, hp4_al, hp4_pre, hp4_bmem, hp4_amem,
        ⟨new4, hnew4, hnew4ne⟩, ⟨newL4, hnewL4⟩, hp4_lti, hp4_layout⟩ := hpres4
      have hpatch : ({ st2 with
          nodes := st2.nodes.set st.nodes.length
            ((st2.nodes.getD st.nodes.length
              (.leaf 0 0)).set_above_child_index st2.nodes.length) } :
          BuildState).nodes = st2.nodes.set st.nodes.length
            (.inner st2.nodes.length nbb.maximum_extent
              (frameSplit tbbs is_above count aStart nbb st)) := by
        show st2.nodes.set st.nodes.length _ = _
        rw [hgp0]
        rfl
      have hnew4' : st4.nodes = st2.nodes.set st.nodes.length
          (.inner st2.nodes.length nbb.maximum_extent
            (frameSplit tbbs is_above count aStart nbb st)) ++ new4 := by
        rw [hnew4, hpatch]
      have hnew4pos : 0 < new4.length := List.length_pos.mpr hnew4ne
      have hst3len : (st2.nodes.set st.nodes.length
          (.inner st2.nodes.length nbb.maximum_extent
            (frameSplit tbbs is_above count aStart nbb st))).length =
          st2.nodes.length := List.length_set _ _ _
      have hst4_ge : st2.nodes.length + 1 ≤ st4.nodes.length := by
        rw [hnew4']
        simp [List.length_append, hst3len]
        omega
      have hsub4' : subtreeEnd st4.nodes (d + 1) st2.nodes.length =
          some st4.nodes.length := by
        have h := hsub4
        rw [hpatch, hst3len] at h
        exact h
      refine ⟨st4, ?_, ?_, ?_⟩
      · rw [build_node_inner_eq opts tbbs d is_above count nbb aStart st hcond]
        rw [hwb]
        simp only []
        rw [hwa]
        simp only []
        rw [hcall2]
        simp only []
        exact hcall4
      · -- buildPreserved n aStart st st4
        have e4bl : st4.indices_below.length = st2.indices_below.length := hp4_bl
        have e4al : st4.indices_above.length = st2.indices_above.length := hp4_al
        have e4pre : ∀ j, j < aStart →
            st4.indices_above.getD j 0 = st2.indices_above.getD j 0 := hp4_pre
        have eL4 : st4.linear_triangle_indices =
            st2.linear_triangle_indices ++ newL4 := hnewL4
        have eL2 : st2.linear_triangle_indices =
            st.linear_triangle_indices ++ newL2 := hnewL2
        have hrecLen : ({ st2 with
            nodes := st2.nodes.set st.nodes.length
              ((st2.nodes.getD st.nodes.length
                (.leaf 0 0)).set_above_child_index st2.nodes.length) } :
            BuildState).nodes.length = st2.nodes.length := by
          rw [hpatch]
          exact hst3len
        have hstPlen : ({ st with
            nodes := st.nodes ++ [.inner 0 nbb.maximum_extent
              (frameSplit tbbs is_above count aStart nbb st)]
            indices_below := below1
            indices_above := above1 } : BuildState).nodes.length =
            st.nodes.length + 1 := by
          simp
        have hroot : st4.nodes.getD st.nodes.length (.leaf 0 0) =
            .inner st2.nodes.length nbb.maximum_extent
              (frameSplit tbbs is_above count aStart nbb st) := by
          rw [hnew4']
          rw [List.getD_append _ _ _ _ (by rw [hst3len]; omega)]
          exact getD_set_self _ _ _ _ (by omega)
        refine ⟨?_, ?_, ?_, hp4_bmem, hp4_amem, ?_, ?_, hp4_lti, ?_⟩
        · rw [e4bl, hb2len, hwb_len]
        · rw [e4al, ha2len, hwa_len]
        · intro j hj
          rw [e4pre j hj, hpre2 j (by omega), hwa_pre j hj]
        · refine ⟨.inner st2.nodes.length nbb.maximum_extent
            (frameSplit tbbs is_above count aStart nbb st) :: (new2 ++ new4),
            ?_, by simp⟩
          rw [hnew4', hnew2']
          rw [List.append_assoc st.nodes]
          rw [set_append_len]
          simp
        · exact ⟨newL2 ++ newL4, by rw [eL4, eL2, List.append_assoc]⟩
        · intro p hp a ax sp hget
          by_cases hpL2 : st2.nodes.length ≤ p
          · exact hp4_layout p (by rw [hrecLen]; omega) a ax sp hget
          · push_neg at hpL2
            by_cases hp0 : p = st.nodes.length
            · subst hp0
              rw [hroot] at hget
              obtain ⟨ha, -, -⟩ := LinearKDTreeNode.inner.inj hget
              omega
            · have hgets : st4.nodes.getD p (.leaf 0 0) =
                  st2.nodes.getD p (.leaf 0 0) := by
                rw [hnew4']
                rw [List.getD_append _ _ _ _ (by rw [hst3len]; omega)]
                exact getD_set_of_ne _ _ _ _ _ (Ne.symm (fun h => hp0 h.symm))
              rw [hgets] at hget
              have := hp2_layout p (by rw [hstPlen]; omega) a ax sp hget
              omega
      · -- subtreeEnd for the assembled block
        have hroot : st4.nodes.getD st.nodes.length (.leaf 0 0) =
            .inner st2.nodes.length nbb.maximum_extent
              (frameSplit tbbs is_above count aStart nbb st) := by
          rw [hnew4']
          rw [List.getD_append _ _ _ _ (by rw [hst3len]; omega)]
          exact getD_set_self _ _ _ _ (by omega)
        have s3 : subtreeEnd st4.nodes (d + 1) (st.nodes.length + 1) =
            some st2.nodes.length := by
          refine subtreeEnd_stable st2.nodes st4.nodes (d + 1) _ _ hsub2' ?_
          intro j hj1 hj2
          rw [hnew4']
          rw [List.getD_append _ _ _ _ (by rw [hst3len]; omega)]
          exact getD_set_of_ne _ _ _ _ _ (by omega)
        rw [subtreeEnd]
        rw [hroot]
        simp only []
        rw [s3]
        simp only [if_true]
        exact hsub4'

/-- The master facts instantiated at `LinearKDTree.build`'s top-level call,
with the source's scratch allocation. -/
theorem build_top (data : MeshData) (max_depth : Nat) (opts : KDTreeOptions) :
    ∃ st', build_node opts (triangle_bounding_boxes data) max_depth false
        data.triangles.length (root_bounding_box (triangle_bounding_boxes data)) 0
        { nodes := []
          linear_triangle_indices := []
          indices_below := List.range data.triangles.length
          indices_above :=
            List.replicate ((max_depth + 1) * data.triangles.length) 0 } =
        some st' ∧
      buildPreserved data.triangles.length 0
        { nodes := []
          linear_triangle_indices := []
          indices_below := List.range data.triangles.length
          indices_above :=
            List.replicate ((max_depth + 1) * data.triangles.length) 0 } st' ∧
      subtreeEnd st'.nodes (max_depth + 1) 0 = some st'.nodes.length := by
  have h := build_node_master opts (triangle_bounding_boxes data)
    data.triangles.length max_depth false data.triangles.length
    (root_bounding_box (triangle_bounding_boxes data)) 0
    { nodes := []
      linear_triangle_indices := []
      indices_below := List.range data.triangles.length
      indices_above := List.replicate ((max_depth + 1) * data.triangles.length) 0 }
    (fun x hx => List.mem_range.mp hx)
    (fun x hx => by
      obtain ⟨hk, hx0⟩ := List.mem_replicate.mp hx
      subst hx0
      have : (max_depth + 1) * data.triangles.length ≠ 0 := hk
      rcases Nat.eq_zero_or_pos data.triangles.length with h0 | h0
      · rw [h0, Nat.mul_zero] at this
        exact absurd rfl this
      · exact h0)
    (fun x hx => absurd hx (List.not_mem_nil x))
    (by simp)
    (fun h => Bool.noConfusion h)
    (by simp)
  obtain ⟨st', h0, h1, h2⟩ := h
  exact ⟨st', h0, h1, by simpa using h2⟩

/-- What a successful `LinearKDTree.build` guarantees about the resulting
tree. -/
theorem build_dest (data : MeshData) (max_depth : Nat) (opts : KDTreeOptions)
    (tree : LinearKDTree)
    (h : LinearKDTree.build data max_depth opts = some tree) :
    tree.data = data ∧
    (∀ x ∈ tree.linear_triangle_indices, x < data.triangles.length) ∧
    (∀ p a ax sp, tree.nodes.getD p (.leaf 0 0) = .inner a ax sp →
      p + 1 < a ∧ a < tree.nodes.length) ∧
    subtreeEnd tree.nodes (max_depth + 1) 0 = some tree.nodes.length := by
  obtain ⟨st', hb, hpres, hsubt⟩ := build_top data max_depth opts
  rw [LinearKDTree.build] at h
  rw [hb] at h
  simp only [Option.some.injEq] at h
  obtain ⟨-, -, -, -, -, -, -, hlti, hlayout⟩ := hpres
  subst h
  refine ⟨rfl, hlti, ?_, hsubt⟩
  intro p a ax sp hget
  exact hlayout p (Nat.zero_le p) a ax sp hget

theorem triEdges_length (tbbs : List AABB) (ax : Axis) :
    ∀ tis : List Nat, (triEdges tbbs ax tis).length = 2 * tis.length
  | [] => rfl
  | ti :: rest => by
    simp [triEdges, triEdges_length tbbs ax rest]
    ring

/-- **C3.**  For every `MeshData` with `N` triangles and every `max_depth`,
the build recursion only writes the pre-allocated scratch buffers in bounds:

* With the source allocation (`indices_below = [0..N)`,
  `indices_above = [0; (max_depth+1)·N]`) the top-level recursion returns
  `some` -- an out-of-bounds scratch write would make the model return `none`
  (`writeSeq`).
* Every call obeying the capacity invariant
  `aStart + (depth+1)·count ≤ |indices_above|` (established at the root and
  re-established for both children, as the proof of `build_node_master` shows)
  succeeds and returns with `indices_above[0..aStart)` unchanged.  A frame's
  below-child recursion is invoked with the offset `aStart + n_above`, so this
  says precisely that the `n_above` indices the frame stashed at
  `indices_above[aStart..aStart+n_above)` are intact when the below child
  returns.
* The central-edge accesses `edges[len/2]`, `edges[len/2+1]` of the median
  split are in bounds whenever the frame has at least two active triangles
  (always the case for an inner node, since `count > max_leaf_size ≥ 1` with
  the only reachable option value `max_leaf_size = 16`).

The per-frame reads `indices_*[..count]` are totalized in the model
(`activeIndices`); the master invariant `count ≤ |indices_below|` /
`aStart + count ≤ |indices_above|` carried by `build_node_master` shows they
are in bounds as well. -/
theorem build_scratch_safety :
    (∀ (data : MeshData) (max_depth : Nat) (opts : KDTreeOptions),
      ∃ tree, LinearKDTree.build data max_depth opts = some tree) ∧
    (∀ (opts : KDTreeOptions) (tbbs : List AABB) (n depth : Nat)
      (is_above : Bool) (count : Nat) (nbb : AABB) (aStart : Nat)
      (st : BuildState),
      (∀ x ∈ st.indices_below, x < n) →
      (∀ x ∈ st.indices_above, x < n) →
      (∀ x ∈ st.linear_triangle_indices, x < n) →
      count ≤ st.indices_below.length →
      (is_above = true → aStart + count ≤ st.indices_above.length) →
      aStart + (depth + 1) * count ≤ st.indices_above.length →
      ∃ st', build_node opts tbbs depth is_above count nbb aStart st = some st' ∧
        st'.indices_above.length = st.indices_above.length ∧
        ∀ j, j < aStart → st'.indices_above.getD j 0 = st.indices_above.getD j 0) ∧
    (∀ (tbbs : List AABB) (is_above : Bool) (count aStart : Nat) (nbb : AABB)
      (st : BuildState),
      2 ≤ (activeIndices is_above count aStart st).length →
      (frameEdges tbbs is_above count aStart nbb st).length / 2 + 1 <
        (frameEdges tbbs is_above count aStart nbb st).length) := by
  refine ⟨?_, ?_, ?_⟩
  · intro data max_depth opts
    obtain ⟨st', hb, -, -⟩ := build_top data max_depth opts
    rw [LinearKDTree.build]
    rw [hb]
    exact ⟨_, rfl⟩
  · intro opts tbbs n depth is_above count nbb aStart st h1 h2 h3 h4 h5 h6
    obtain ⟨st', hb, hpres, -⟩ :=
      build_node_master opts tbbs n depth is_above count nbb aStart st
        h1 h2 h3 h4 h5 h6
    obtain ⟨-, hal, hpre, -⟩ := hpres
    exact ⟨st', hb, hal, hpre⟩
  · intro tbbs is_above count aStart nbb st h2
    have hlen : (frameEdges tbbs is_above count aStart nbb st).length =
        2 * (activeIndices is_above count aStart st).length := by
      rw [frameEdges]
      rw [(sortEdges_perm _).length_eq]
      exact triEdges_length tbbs nbb.maximum_extent _
    rw [hlen]
    omega

/-- **C3, witness** for `build_scratch_safety`: the first conjunct at a
two-triangle mesh, the second at a one-triangle frame, the third at a frame
with two active triangles. -/
theorem build_scratch_safety_witness :
    (∃ tree, LinearKDTree.build
      ⟨[⟨0,0,0⟩, ⟨1,1,1⟩, ⟨1,0,0⟩, ⟨4,0,0⟩, ⟨5,1,1⟩, ⟨5,0,0⟩],
       [⟨(0,1,2)⟩, ⟨(3,4,5)⟩]⟩ 1 ⟨1⟩ = some tree) ∧
    (∃ st', build_node ⟨16⟩ [] 0 false 1 ⟨⟨0,0,0⟩, ⟨1,1,1⟩⟩ 0
        ⟨[], [], [0], [0]⟩ = some st' ∧
      st'.indices_above.length = ([0] : List Nat).length ∧
      ∀ j, j < 0 → st'.indices_above.getD j 0 = ([0] : List Nat).getD j 0) ∧
    ((frameEdges [] false 2 0 ⟨⟨0,0,0⟩, ⟨1,1,1⟩⟩ ⟨[], [], [0, 1], []⟩).length / 2
      + 1 <
      (frameEdges [] false 2 0 ⟨⟨0,0,0⟩, ⟨1,1,1⟩⟩ ⟨[], [], [0, 1], []⟩).length) :=
  ⟨build_scratch_safety.1 _ 1 ⟨1⟩,
   build_scratch_safety.2.1 ⟨16⟩ [] 1 0 false 1 ⟨⟨0,0,0⟩, ⟨1,1,1⟩⟩ 0
     ⟨[], [], [0], [0]⟩
     (by intro x hx; simp at hx; omega)
     (by intro x hx; simp at hx; omega)
     (by intro x hx; simp at hx)
     (by simp)
     (fun h => Bool.noConfusion h)
     (by simp),
   build_scratch_safety.2.2 [] false 2 0 ⟨⟨0,0,0⟩, ⟨1,1,1⟩⟩ ⟨[], [], [0, 1], []⟩
     (by with_unfolding_all decide)⟩

/-- **C2.**  In the node array produced by `LinearKDTree::build`, every inner
node at index `p` stores a patched above-child index `a` with
`p + 1 < a < length` (in particular `a ≠ 0`: the placeholder written when the
slot was emitted was patched before `build` returned), and the whole array is
a well-formed depth-first layout: `subtreeEnd` certifies recursively that the
below child of every inner node starts at `p + 1` and that the stored
above-child index is exactly the first node after the below subtree, i.e. the
first node of the above subtree. -/
theorem kd_build_layout (data : MeshData) (max_depth : Nat)
    (opts : KDTreeOptions) (tree : LinearKDTree)
    (h : LinearKDTree.build data max_depth opts = some tree) :
    (∀ p a ax sp, tree.nodes.getD p (.leaf 0 0) = .inner a ax sp →
      p + 1 < a ∧ a < tree.nodes.length ∧ 0 < a) ∧
    subtreeEnd tree.nodes (max_depth + 1) 0 = some tree.nodes.length := by
  obtain ⟨-, -, hlayout, hsubt⟩ := build_dest data max_depth opts tree h
  refine ⟨?_, hsubt⟩
  intro p a ax sp hget
  obtain ⟨h1, h2⟩ := hlayout p a ax sp hget
  exact ⟨h1, h2, by omega⟩

/-- **C2, witness** for `kd_build_layout`: the two-triangle mesh splits into
`[inner 2 X (9/2), leaf 2 0, leaf 1 2]`; the root's above child sits at index
2, strictly past its below child at index 1, and `subtreeEnd` covers the whole
3-node array. -/
theorem kd_build_layout_witness :
    (0 + 1 < 2 ∧
      2 < (LinearKDTree.mk
        [.inner 2 .X (9/2), .leaf 2 0, .leaf 1 2] [0, 1, 1]
        ⟨⟨0,0,0⟩, ⟨5,1,1⟩⟩
        ⟨[⟨0,0,0⟩, ⟨1,1,1⟩, ⟨1,0,0⟩, ⟨4,0,0⟩, ⟨5,1,1⟩, ⟨5,0,0⟩],
         [⟨(0,1,2)⟩, ⟨(3,4,5)⟩]⟩).nodes.length ∧ 0 < 2) ∧
    subtreeEnd (LinearKDTree.mk
        [.inner 2 .X (9/2), .leaf 2 0, .leaf 1 2] [0, 1, 1]
        ⟨⟨0,0,0⟩, ⟨5,1,1⟩⟩
        ⟨[⟨0,0,0⟩, ⟨1,1,1⟩, ⟨1,0,0⟩, ⟨4,0,0⟩, ⟨5,1,1⟩, ⟨5,0,0⟩],
         [⟨(0,1,2)⟩, ⟨(3,4,5)⟩]⟩).nodes 2 0 =
      some (LinearKDTree.mk
        [.inner 2 .X (9/2), .leaf 2 0, .leaf 1 2] [0, 1, 1]
        ⟨⟨0,0,0⟩, ⟨5,1,1⟩⟩
        ⟨[⟨0,0,0⟩, ⟨1,1,1⟩, ⟨1,0,0⟩, ⟨4,0,0⟩, ⟨5,1,1⟩, ⟨5,0,0⟩],
         [⟨(0,1,2)⟩, ⟨(3,4,5)⟩]⟩).nodes.length := by
  have h := kd_build_layout
    ⟨[⟨0,0,0⟩, ⟨1,1,1⟩, ⟨1,0,0⟩, ⟨4,0,0⟩, ⟨5,1,1⟩, ⟨5,0,0⟩],
     [⟨(0,1,2)⟩, ⟨(3,4,5)⟩]⟩ 1 ⟨1⟩
    (LinearKDTree.mk
      [.inner 2 .X (9/2), .leaf 2 0, .leaf 1 2] [0, 1, 1]
      ⟨⟨0,0,0⟩, ⟨5,1,1⟩⟩
      ⟨[⟨0,0,0⟩, ⟨1,1,1⟩, ⟨1,0,0⟩, ⟨4,0,0⟩, ⟨5,1,1⟩, ⟨5,0,0⟩],
       [⟨(0,1,2)⟩, ⟨(3,4,5)⟩]⟩)
    (by with_unfolding_all decide)
  exact ⟨h.1 0 2 .X (9/2) (by with_unfolding_all decide), h.2⟩

/-- The stack invariant of the traversal loop: every entry has an ordered
interval (`t_min ≤ t_max`), and consecutive entries (top first) have
non-overlapping, increasing intervals: each entry's `t_max` is at most the
next entry's `t_min`. -/
def chainedStack : List ToDoItem → Prop
  | [] => True
  | [e] => e.t_min ≤ e.t_max
  | e1 :: e2 :: rest =>
    e1.t_min ≤ e1.t_max ∧ e1.t_max ≤ e2.t_min ∧ chainedStack (e2 :: rest)

theorem chainedStack_tail (e : ToDoItem) (rest : List ToDoItem)
    (h : chainedStack (e :: rest)) : chainedStack rest := by
  cases rest with
  | nil => trivial
  | cons e2 rest2 => exact h.2.2

theorem chainedStack_replace_head (e e' : ToDoItem) (rest : List ToDoItem)
    (h : chainedStack (e :: rest)) (hmin : e'.t_min = e.t_min)
    (hmax : e'.t_max = e.t_max) : chainedStack (e' :: rest) := by
  cases rest with
  | nil =>
    show e'.t_min ≤ e'.t_max
    rw [hmin, hmax]
    exact h
  | cons e2 rest2 =>
    exact ⟨by rw [hmin, hmax]; exact h.1, by rw [hmax]; exact h.2.1, h.2.2⟩

/-- **C4.**  The pruning invariant of `LinearKDTree::intersect`, in three
parts.  (1) One loop iteration preserves `chainedStack`: whatever an inner
node pushes for the popped entry -- near child only, far child only, or far
below near with the interval split at `t_split` -- the new stack is again
chained; the branch guards themselves (`¬(t_split > t_max ∨ t_split ≤ 0)`,
`¬(t_split < t_min)`) supply the orderings.  (2) In a chained stack, if the
popped entry's `t_min` exceeds the current nearest-hit distance `dist`, every
remaining entry has `t_min ≥ dist`, so the `break` discards only nodes whose
t-interval lies entirely beyond the recorded hit.  (3) The initial stack
(the root with the interval from the slab test) is chained. -/
theorem kd_traversal_pruning :
    (∀ (ray : Ray) (inv_dir : Vec3) (node : LinearKDTreeNode) (it : ToDoItem)
      (rest : List ToDoItem), chainedStack (it :: rest) →
      chainedStack (pushedItems ray inv_dir node it ++ rest)) ∧
    (∀ (it : ToDoItem) (rest : List ToDoItem) (dist : ℚ),
      chainedStack (it :: rest) → dist < it.t_min →
      ∀ e ∈ rest, dist ≤ e.t_min) ∧
    (∀ (b : AABB) (ray : Ray) (t0 t1 : ℚ),
      AABB.intersects_p b ray = some (t0, t1) →
      chainedStack [⟨0, t0, t1⟩]) := by
  refine ⟨?_, ?_, ?_⟩
  · intro ray inv_dir node it rest h
    cases node with
    | leaf c s =>
      rw [pushedItems]
      exact chainedStack_tail it rest h
    | inner a ax sp =>
      rw [pushedItems]
      by_cases h1 : (sp - ray.origin.nth ax) * inv_dir.nth ax > it.t_max ∨
          (sp - ray.origin.nth ax) * inv_dir.nth ax ≤ 0
      · rw [if_pos h1]
        exact chainedStack_replace_head it _ rest h rfl rfl
      · rw [if_neg h1]
        push_neg at h1
        by_cases h2 : (sp - ray.origin.nth ax) * inv_dir.nth ax < it.t_min
        · rw [if_pos h2]
          exact chainedStack_replace_head it _ rest h rfl rfl
        · rw [if_neg h2]
          push_neg at h2
          have hw : it.t_min ≤ it.t_max ∧
              (∀ e ∈ rest.head?, it.t_max ≤ e.t_min) ∧ chainedStack rest := by
            cases rest with
            | nil => exact ⟨h, by simp, trivial⟩
            | cons e2 rest2 =>
              exact ⟨h.1, by simpa using h.2.1, h.2.2⟩
          obtain ⟨hw1, hw2, hw3⟩ := hw
          cases rest with
          | nil =>
            exact ⟨h2, le_refl _, h1.1⟩
          | cons e2 rest2 =>
            exact ⟨h2, le_refl _, h1.1, by simpa using hw2 e2, hw3⟩
  · intro it rest
    induction rest generalizing it with
    | nil => intro dist h hd e he; exact absurd he (List.not_mem_nil e)
    | cons e2 rest2 ih =>
      intro dist h hd e he
      obtain ⟨hw, hch, hc2⟩ := h
      have hde2 : dist < e2.t_min := by
        calc dist < it.t_min := hd
          _ ≤ it.t_max := hw
          _ ≤ e2.t_min := hch
      rcases List.mem_cons.mp he with he | he
      · rw [he]
        exact le_of_lt hde2
      · exact ih e2 dist hc2 hde2 e he
  · intro b ray t0 t1 h
    rw [AABB.intersects_p] at h
    by_cases h1 : Min.min (Min.min (Max.max ((b.min.x - ray.origin.x) *
        ray.direction.recip.x) ((b.max.x - ray.origin.x) *
        ray.direction.recip.x)) (Max.max ((b.min.y - ray.origin.y) *
        ray.direction.recip.y) ((b.max.y - ray.origin.y) *
        ray.direction.recip.y))) (Max.max ((b.min.z - ray.origin.z) *
        ray.direction.recip.z) ((b.max.z - ray.origin.z) *
        ray.direction.recip.z)) < 0
    · rw [if_pos h1] at h
      exact Option.noConfusion h
    · rw [if_neg h1] at h
      by_cases h2 : Max.max (Max.max (Min.min ((b.min.x - ray.origin.x) *
          ray.direction.recip.x) ((b.max.x - ray.origin.x) *
          ray.direction.recip.x)) (Min.min ((b.min.y - ray.origin.y) *
          ray.direction.recip.y) ((b.max.y - ray.origin.y) *
          ray.direction.recip.y))) (Min.min ((b.min.z - ray.origin.z) *
          ray.direction.recip.z) ((b.max.z - ray.origin.z) *
          ray.direction.recip.z)) > Min.min (Min.min (Max.max
          ((b.min.x - ray.origin.x) * ray.direction.recip.x)
          ((b.max.x - ray.origin.x) * ray.direction.recip.x)) (Max.max
          ((b.min.y - ray.origin.y) * ray.direction.recip.y)
          ((b.max.y - ray.origin.y) * ray.direction.recip.y))) (Max.max
          ((b.min.z - ray.origin.z) * ray.direction.recip.z)
          ((b.max.z - ray.origin.z) * ray.direction.recip.z))
      · rw [if_pos h2] at h
        exact Option.noConfusion h
      · rw [if_neg h2] at h
        push_neg at h2
        obtain ⟨he0, he1⟩ := Prod.mk.injEq .. ▸ Option.some.inj h
        show t0 ≤ t1
        rw [← he0, ← he1]
        exact h2

/-- **C4, witness** for `kd_traversal_pruning`: the both-push case of an inner
node split at `x = 5` for a stack `[(0, [0,10])]`; a chained two-entry stack
with a nearest hit at distance 3 closer than the popped `t_min = 4`; and the
initial stack of a concrete slab test. -/
theorem kd_traversal_pruning_witness :
    chainedStack (pushedItems ⟨⟨0, 0, 0⟩, ⟨1, 1, 1⟩⟩ ⟨1, 1, 1⟩
      (.inner 2 .X 5) ⟨0, 0, 10⟩ ++ []) ∧
    (∀ e ∈ [ToDoItem.mk 2 5 10], (3 : ℚ) ≤ e.t_min) ∧
    chainedStack [⟨0, 1, 2⟩] :=
  ⟨kd_traversal_pruning.1 ⟨⟨0, 0, 0⟩, ⟨1, 1, 1⟩⟩ ⟨1, 1, 1⟩ (.inner 2 .X 5)
      ⟨0, 0, 10⟩ [] (by norm_num [chainedStack]),
   kd_traversal_pruning.2.1 ⟨1, 4, 5⟩ [⟨2, 5, 10⟩] 3
      (by norm_num [chainedStack]) (by norm_num),
   kd_traversal_pruning.2.2 ⟨⟨0, 0, 0⟩, ⟨1, 1, 1⟩⟩ ⟨⟨-1, -1, -1⟩, ⟨1, 1, 1⟩⟩ 1 2
      (by with_unfolding_all decide)⟩

/-- A recorded nearest hit is genuine: its index names a real triangle of the
mesh and its `TriangleHit` is exactly what `intersect_triangle` returns for
that triangle. -/
def goodHit (data : MeshData) (ray : Ray) (acc : Option (Nat × TriangleHit)) :
    Prop :=
  ∀ i h, acc = some (i, h) → i < data.triangles.length ∧
    intersect_triangle ray (data.triVerts i).1 (data.triVerts i).2.1
      (data.triVerts i).2.2 = some h

theorem testTriangles_good (data : MeshData) (ray : Ray) :
    ∀ (tis : List Nat) (acc : Option (Nat × TriangleHit)),
      (∀ ti ∈ tis, ti < data.triangles.length) → goodHit data ray acc →
      goodHit data ray (testTriangles data ray tis acc)
  | [], acc, _, hacc => hacc
  | ti :: rest, acc, htis, hacc => by
    rw [testTriangles]
    refine testTriangles_good data ray rest _
      (fun t ht => htis t (List.mem_cons_of_mem _ ht)) ?_
    rcases hit : intersect_triangle ray (data.triVerts ti).1
        (data.triVerts ti).2.1 (data.triVerts ti).2.2 with - | hv
    · simp only [hit]
      exact hacc
    · simp only [hit]
      rcases hc : acc with - | ⟨j, cur⟩
      · simp only []
        intro i h hih
        obtain ⟨hi, hh⟩ := Prod.mk.injEq .. ▸ Option.some.inj hih
        subst hi
        subst hh
        exact ⟨htis ti (List.mem_cons_self _ _), hit⟩
      · simp only []
        by_cases hcl : hv.distance < cur.distance
        · rw [if_pos hcl]
          intro i h hih
          obtain ⟨hi, hh⟩ := Prod.mk.injEq .. ▸ Option.some.inj hih
          subst hi
          subst hh
          exact ⟨htis ti (List.mem_cons_self _ _), hit⟩
        · rw [if_neg hcl]
          exact hc ▸ hacc

theorem intersectLoop_good (nodes : List LinearKDTreeNode) (lti : List Nat)
    (data : MeshData) (ray : Ray) (inv_dir : Vec3)
    (hlti : ∀ x ∈ lti, x < data.triangles.length) :
    ∀ (fuel : Nat) (stack : List ToDoItem) (acc : Option (Nat × TriangleHit)),
      goodHit data ray acc →
      goodHit data ray (intersectLoop nodes lti data ray inv_dir fuel stack acc)
  | 0, _, acc, hacc => hacc
  | _ + 1, [], acc, hacc => hacc
  | fuel + 1, it :: rest, acc, hacc => by
    rw [intersectLoop.eq_def]
    simp only []
    split
    · exact hacc
    · rcases hn : nodes.getD it.node_index (.leaf 0 0) with ⟨c, s⟩ | ⟨a, ax, sp⟩
      · simp only []
        refine intersectLoop_good nodes lti data ray inv_dir hlti fuel rest _
          (testTriangles_good data ray _ acc ?_ hacc)
        intro t ht
        exact hlti t (List.mem_of_mem_drop (List.mem_of_mem_take ht))
      · simp only []
        exact intersectLoop_good nodes lti data ray inv_dir hlti fuel _ acc hacc

/-- The leaf-loop update never moves the recorded nearest hit farther away. -/
theorem testTriangles_mono (data : MeshData) (ray : Ray) :
    ∀ (tis : List Nat) (acc : Option (Nat × TriangleHit)) (j : Nat)
      (bh : TriangleHit), acc = some (j, bh) →
      ∃ j' bh', testTriangles data ray tis acc = some (j', bh') ∧
        bh'.distance ≤ bh.distance
  | [], acc, j, bh, hacc => ⟨j, bh, hacc, le_refl _⟩
  | ti :: rest, acc, j, bh, hacc => by
    subst hacc
    rw [testTriangles]
    simp only []
    rcases hit : intersect_triangle ray (data.triVerts ti).1
        (data.triVerts ti).2.1 (data.triVerts ti).2.2 with - | hv
    · simp only []
      exact testTriangles_mono data ray rest _ j bh rfl
    · simp only []
      by_cases hcl : hv.distance < bh.distance
      · rw [if_pos hcl]
        obtain ⟨j', bh', he, hle⟩ :=
          testTriangles_mono data ray rest (some (ti, hv)) ti hv rfl
        exact ⟨j', bh', he, le_trans hle (le_of_lt hcl)⟩
      · rw [if_neg hcl]
        exact testTriangles_mono data ray rest _ j bh rfl

/-- If some listed triangle is hit, the leaf loop returns a hit at most that
far away. -/
theorem testTriangles_hit (data : MeshData) (ray : Ray) :
    ∀ (tis : List Nat) (acc : Option (Nat × TriangleHit)) (i : Nat)
      (th : TriangleHit), i ∈ tis →
      intersect_triangle ray (data.triVerts i).1 (data.triVerts i).2.1
        (data.triVerts i).2.2 = some th →
      ∃ j bh, testTriangles data ray tis acc = some (j, bh) ∧
        bh.distance ≤ th.distance
  | [], _, i, th, hmem, _ => absurd hmem (List.not_mem_nil i)
  | ti :: rest, acc, i, th, hmem, hit => by
    rcases List.mem_cons.mp hmem with hi | hi
    · subst hi
      rw [testTriangles]
      rw [hit]
      simp only []
      rcases acc with - | ⟨j0, cur⟩
      · simp only []
        exact testTriangles_mono data ray rest _ i th rfl
      · simp only []
        by_cases hcl : th.distance < cur.distance
        · rw [if_pos hcl]
          exact testTriangles_mono data ray rest _ i th rfl
        · rw [if_neg hcl]
          obtain ⟨j', bh', he, hle⟩ :=
            testTriangles_mono data ray rest (some (j0, cur)) j0 cur rfl
          exact ⟨j', bh', he, le_trans hle (not_lt.mp hcl)⟩
    · rw [testTriangles]
      exact testTriangles_hit data ray rest _ i th hi hit

/-- **C1, amended.**  Soundness of the KD-tree against the brute-force scan:
whenever `LinearKDTree::intersect` on a tree built from a mesh returns a hit,
that hit is a genuine `intersect_triangle` hit on a triangle of the mesh, so
the brute-force scan also finds a hit, of distance at most the KD-tree's.
The converse of the original claim -- that the KD-tree hits whenever the
brute-force scan does, with the same distance -- is false: see the
counterexample `kd_tree_misses_split_plane_hit`, where a hit exactly on a
split plane containing the ray origin is skipped by the
`t_split ≤ 0 → push near child only` branch. -/
theorem LinearKDTree.intersect_eq (t : LinearKDTree) (ray : Ray) :
    t.intersect ray =
      match t.bounding_box.intersects_p ray with
      | none => none
      | some (bb_t_min, bb_t_max) =>
        intersectLoop t.nodes t.linear_triangle_indices t.data ray
          ray.direction.recip (2 ^ (t.nodes.length + 1))
          [⟨0, bb_t_min, bb_t_max⟩] none := rfl

theorem kd_intersect_sound (data : MeshData) (max_depth : Nat)
    (opts : KDTreeOptions) (tree : LinearKDTree) (ray : Ray) (i : Nat)
    (th : TriangleHit)
    (hbuild : LinearKDTree.build data max_depth opts = some tree)
    (hhit : tree.intersect ray = some (i, th)) :
    i < data.triangles.length ∧
    intersect_triangle ray (data.triVerts i).1 (data.triVerts i).2.1
      (data.triVerts i).2.2 = some th ∧
    ∃ j bh, bruteForceIntersect data ray = some (j, bh) ∧
      bh.distance ≤ th.distance := by
  obtain ⟨hdata, hlti, -, -⟩ := build_dest data max_depth opts tree hbuild
  rw [LinearKDTree.intersect_eq] at hhit
  rcases hbb : tree.bounding_box.intersects_p ray with - | ⟨t0, t1⟩
  · rw [hbb] at hhit
    exact Option.noConfusion hhit
  · rw [hbb] at hhit
    simp only [] at hhit
    have hgood : goodHit data ray (some (i, th)) := by
      rw [← hhit]
      rw [hdata]
      exact intersectLoop_good tree.nodes tree.linear_triangle_indices
        data ray ray.direction.recip hlti _ _ none (fun i h hih =>
          Option.noConfusion hih)
    obtain ⟨hi, hhitith⟩ := hgood i th rfl
    refine ⟨hi, hhitith, ?_⟩
    exact testTriangles_hit data ray (List.range data.triangles.length) none i
      th (List.mem_range.mpr hi) hhitith

/-- Vertices of the `i`-th filler triangle left of the split plane
(x-extent `[-50+2i, -49+2i]`). -/
def splitPlaneMeshLeftTri (i : Nat) : List Vec3 :=
  [⟨-50 + 2 * i, 0, 0⟩, ⟨-49 + 2 * i, 1, 0⟩, ⟨-50 + 2 * i, 0, 1⟩]

/-- Vertices of the `j`-th filler triangle right of the split plane
(x-extent `[1+2j, 2+2j]`, far from the probe ray). -/
def splitPlaneMeshRightTri (j : Nat) : List Vec3 :=
  [⟨1 + 2 * j, 0, 0⟩, ⟨2 + 2 * j, 1, 0⟩, ⟨1 + 2 * j, 0, 1⟩]

/-- A 17-triangle mesh engineered so that the default median split of the root
(17 > `max_leaf_size = 16`) lands exactly on the plane `x = 0`: triangle 0
lies inside that plane, 8 filler triangles lie strictly left, one touches the
plane from the left (its max edge at 0), and 7 lie strictly right.  The 34
sorted edge x-positions are 17 negatives, three zeros, then 14 positives, so
`split = (edges[17] + edges[18])/2 = 0`. -/
def splitPlaneMesh : MeshData :=
  ⟨[⟨0, 0, 0⟩, ⟨0, 6, 0⟩, ⟨0, 0, 6⟩] ++
    (List.range 8).flatMap splitPlaneMeshLeftTri ++
    [⟨-5, 0, 0⟩, ⟨0, 1, 0⟩, ⟨-5, 0, 1⟩] ++
    (List.range 7).flatMap splitPlaneMeshRightTri,
   (List.range 17).map fun i => ⟨(3 * i, 3 * i + 1, 3 * i + 2)⟩⟩

/-- A unit-direction ray whose origin `(0,2,2)` is the centroid of triangle 0
and lies exactly on the split plane `x = 0`, heading into the above
half-space (`direction.x = 3/13 > 0`). -/
def splitPlaneRay : Ray := ⟨⟨0, 2, 2⟩, ⟨3/13, 4/13, 12/13⟩⟩

set_option maxRecDepth 100000 in
/-- **C1, counterexample.**  The KD-tree traversal does *not* always agree
with the brute-force scan.  On `splitPlaneMesh` (built with the source's
default options: `max_leaf_size = 16` and the depth `13` the
`8 + 1.3·log₂ 17` formula yields) the tree is
`[inner 2 X 0, leaf 10 _, leaf 7 _]` with triangle 0 stored only in the below
leaf.  For `splitPlaneRay` the brute-force scan hits triangle 0 at distance 0
(the origin lies on the triangle), but the traversal computes
`t_split = (0 - 0)·inv_dir = 0 ≤ 0` at the root, takes the `push near child
only` branch with near = the *above* child (since `origin[X] = split` and
`direction[X] > 0`), never visits the below leaf, and returns no hit at
all -- so "returns a hit iff the brute-force scan finds a hit" fails, and so
does equality of nearest distances. -/
theorem kd_tree_misses_split_plane_hit :
    (LinearKDTree.build splitPlaneMesh 13 ⟨16⟩).map
      (fun t => t.intersect splitPlaneRay) = some none ∧
    bruteForceIntersect splitPlaneMesh splitPlaneRay =
      some (0, ⟨0, 1/3, 1/3⟩) := by
  with_unfolding_all decide

/-- A one-triangle mesh whose only triangle spans the plane `x = 0`. -/
def oneTriMesh : MeshData :=
  ⟨[⟨0, 0, 0⟩, ⟨0, 6, 0⟩, ⟨0, 0, 6⟩], [⟨(0, 1, 2)⟩]⟩

/-- A unit-direction ray hitting `oneTriMesh`'s triangle at distance 13. -/
def oneTriRay : Ray := ⟨⟨-3, -2, -10⟩, ⟨3/13, 4/13, 12/13⟩⟩

/-- The KD-tree built from `oneTriMesh` (a single leaf). -/
def oneTriTree : LinearKDTree :=
  (LinearKDTree.build oneTriMesh 13 ⟨16⟩).getD
    ⟨[], [], ⟨Vec3.zero, Vec3.zero⟩, ⟨[], []⟩⟩

/-- **C1, witness** for `kd_intersect_sound`: on the one-leaf tree of
`oneTriMesh` the KD-tree hit at distance 13 is a genuine triangle hit and the
brute-force scan agrees. -/
theorem kd_intersect_sound_witness :
    0 < oneTriMesh.triangles.length ∧
    intersect_triangle oneTriRay (oneTriMesh.triVerts 0).1
      (oneTriMesh.triVerts 0).2.1 (oneTriMesh.triVerts 0).2.2 =
      some ⟨13, 1/3, 1/3⟩ ∧
    ∃ j bh, bruteForceIntersect oneTriMesh oneTriRay = some (j, bh) ∧
      bh.distance ≤ (TriangleHit.mk 13 (1/3) (1/3)).distance :=
  kd_intersect_sound oneTriMesh 13 ⟨16⟩ oneTriTree oneTriRay 0 ⟨13, 1/3, 1/3⟩
    (by with_unfolding_all decide) (by with_unfolding_all decide)

/-- **C9, witness** for `maximum_extent_amended` at the tie box
`[0,2]×[0,2]×[0,1]`: the `x` extent is bounded by the returned axis's extent,
and since `x` ties with the returned maximiser its index is ≤ the returned
index. -/
theorem maximum_extent_amended_witness :
    AABB.extent ⟨⟨0, 0, 0⟩, ⟨2, 2, 1⟩⟩ Axis.X ≤
      AABB.extent ⟨⟨0, 0, 0⟩, ⟨2, 2, 1⟩⟩
        (AABB.maximum_extent ⟨⟨0, 0, 0⟩, ⟨2, 2, 1⟩⟩) ∧
    Axis.idx Axis.X ≤ (AABB.maximum_extent ⟨⟨0, 0, 0⟩, ⟨2, 2, 1⟩⟩).idx :=
  ⟨(maximum_extent_amended ⟨⟨0, 0, 0⟩, ⟨2, 2, 1⟩⟩).1 Axis.X,
   (maximum_extent_amended ⟨⟨0, 0, 0⟩, ⟨2, 2, 1⟩⟩).2 Axis.X
     (by with_unfolding_all decide)⟩
